import Mathlib

/-!
Shallow embedding of the versioning-rs procedural-macro core: the version
registry and filter expression language of src/version.rs, and the
tree-filtering and per-version emission pipeline of src/versioning.rs.
Identifier and literal tokens are kept as strings, source spans as numbers,
and surface-syntax fragments the engine never inspects (types, signatures,
expression bodies) as numeric payloads re-emitted verbatim.
-/

deriving instance DecidableEq for Except

namespace VersioningRS

/-- Source location token; stands in for proc_macro2::Span. -/
abbrev Span := Nat

/-- Diagnostic severity; the crate only ever constructs Level::Error. -/
inductive Level where
  | error
  deriving DecidableEq, Repr

/-- A proc_macro_error::Diagnostic as built by Diagnostic::spanned. -/
structure Diagnostic where
  span : Span
  level : Level
  message : String
  deriving DecidableEq, Repr

/-- A string literal with its source span (syn::LitStr). -/
structure LitStr where
  value : String
  span : Span
  deriving DecidableEq, Repr

/-- A declared version (struct Version(pub Ident) in src/version.rs); the
    identifier is kept as the string that `to_string` would produce. -/
structure Version where
  name : String
  deriving DecidableEq, Repr

/-- The ordered list of declared versions (struct VersionList(pub Vec<Version>)). -/
structure VersionList where
  versions : List Version
  deriving DecidableEq, Repr

/-- The filter expression language (enum VersionFilter in src/version.rs). -/
inductive VersionFilter where
  | version (ver : LitStr)
  | atLeastExcl (ver : LitStr)
  | atLeast (ver : LitStr)
  | atMostExcl (ver : LitStr)
  | atMost (ver : LitStr)
  | not (filter : VersionFilter)
  | any (vers : List VersionFilter)
  | all (vers : List VersionFilter)

/-- Rust's Iterator::position over a list: index of the first element
    satisfying the predicate. -/
def position (p : α → Bool) : List α → Option Nat
  | [] => none
  | a :: l => if p a then some 0 else (position p l).map (· + 1)

/-- Rust's str::starts_with, embedded as a character-list test so that
    concrete instances evaluate. -/
def strStartsWith (s p : String) : Bool := List.isPrefixOf p.data s.data

/-- The diagnostic text VersionFilter::verify emits for an unknown version
    reference (quoting punctuation of the original format string elided). -/
def unknownVersionMessage (ver : String) : String :=
  "Unknown version string " ++ ver ++ " (add it to your #[versioning(...)] list of known versions)"

mutual

/-- VersionFilter::verify from src/version.rs: checks that every version
    literal referenced by the filter is known to the registry.  A Version
    leaf checks that some registry entry has the literal as a prefix; the
    four positional operators require an exact name match. -/
def VersionFilter.verify : VersionFilter → VersionList → Except Diagnostic Unit
  | .version ver, list =>
      if list.versions.any (fun v => strStartsWith v.name ver.value) then .ok ()
      else .error ⟨ver.span, .error, unknownVersionMessage ver.value⟩
  | .atLeastExcl ver, list =>
      if list.versions.any (fun v => v.name == ver.value) then .ok ()
      else .error ⟨ver.span, .error, unknownVersionMessage ver.value⟩
  | .atLeast ver, list =>
      if list.versions.any (fun v => v.name == ver.value) then .ok ()
      else .error ⟨ver.span, .error, unknownVersionMessage ver.value⟩
  | .atMostExcl ver, list =>
      if list.versions.any (fun v => v.name == ver.value) then .ok ()
      else .error ⟨ver.span, .error, unknownVersionMessage ver.value⟩
  | .atMost ver, list =>
      if list.versions.any (fun v => v.name == ver.value) then .ok ()
      else .error ⟨ver.span, .error, unknownVersionMessage ver.value⟩
  | .not filter, list => filter.verify list
  | .any vers, list => VersionFilter.verifyList vers list
  | .all vers, list => VersionFilter.verifyList vers list

/-- The verification loop over the children of Any/All: each child is
    verified in order and the first error propagates. -/
def VersionFilter.verifyList : List VersionFilter → VersionList → Except Diagnostic Unit
  | [], _ => .ok ()
  | f :: fs, list =>
      match f.verify list with
      | .error d => .error d
      | .ok _ => VersionFilter.verifyList fs list

end

/-- The panic message context of the positional operators in
    Filter::matches (the version literal interpolation is elided). -/
def panicUnknownVersion : String := "Encountered unknown version"

mutual

/-- Filter::matches for VersionFilter (src/version.rs).  `none` models the
    panic taken when a positional operator meets a version absent from the
    registry; the referenced literal is looked up before the candidate,
    exactly as in the source. -/
def VersionFilter.matches : VersionFilter → VersionList → Version → Option Bool
  | .version ver, _, v => some (strStartsWith v.name ver.value)
  | .atLeastExcl ver, list, v =>
      match position (fun w => ver.value == w.name) list.versions with
      | none => none
      | some ver_i =>
          match position (fun w => v.name == w.name) list.versions with
          | none => none
          | some version_i => some (decide (version_i > ver_i))
  | .atLeast ver, list, v =>
      match position (fun w => ver.value == w.name) list.versions with
      | none => none
      | some ver_i =>
          match position (fun w => v.name == w.name) list.versions with
          | none => none
          | some version_i => some (decide (version_i ≥ ver_i))
  | .atMostExcl ver, list, v =>
      match position (fun w => ver.value == w.name) list.versions with
      | none => none
      | some ver_i =>
          match position (fun w => v.name == w.name) list.versions with
          | none => none
          | some version_i => some (decide (version_i < ver_i))
  | .atMost ver, list, v =>
      match position (fun w => ver.value == w.name) list.versions with
      | none => none
      | some ver_i =>
          match position (fun w => v.name == w.name) list.versions with
          | none => none
          | some version_i => some (decide (version_i ≤ ver_i))
  | .not filter, list, v =>
      match filter.matches list v with
      | none => none
      | some b => some (!b)
  | .any vers, list, v => VersionFilter.matchesAnyList vers list v false
  | .all vers, list, v =>
      if vers.isEmpty then some false
      else VersionFilter.matchesAllList vers list v true

/-- The Any loop of Filter::matches: `res = res || f.matches(...)`, with
    Rust's short-circuit (a child is not evaluated once res is true). -/
def VersionFilter.matchesAnyList : List VersionFilter → VersionList → Version → Bool → Option Bool
  | [], _, _, res => some res
  | f :: fs, list, v, res =>
      if res then VersionFilter.matchesAnyList fs list v true
      else
        match f.matches list v with
        | none => none
        | some b => VersionFilter.matchesAnyList fs list v b

/-- The All loop of Filter::matches: `res = res && f.matches(...)`, with
    Rust's short-circuit (a child is not evaluated once res is false). -/
def VersionFilter.matchesAllList : List VersionFilter → VersionList → Version → Bool → Option Bool
  | [], _, _, res => some res
  | f :: fs, list, v, res =>
      if res then
        match f.matches list v with
        | none => none
        | some b => VersionFilter.matchesAllList fs list v b
      else VersionFilter.matchesAllList fs list v false

end

/-- A syn::Path as the engine inspects it: get_ident yields the single
    segment when there is one; the span is the path's location. -/
structure Path where
  ident : Option String
  span : Span
  deriving DecidableEq, Repr

/-- Path::is_ident. -/
def Path.isIdent (p : Path) (s : String) : Bool := p.ident == some s

/-- The value of a name/value meta (a syn::Expr), as far as parse_input
    inspects it: either a boolean literal or anything else. -/
inductive MetaValue where
  | litBool (value : Bool)
  | other (payload : Nat) (span : Span)
  deriving DecidableEq, Repr

/-- A syn::Meta.  For a list meta the bracketed tokens are represented by
    what parse_args::<VersionFilter> yields on them, which is the only way
    the engine ever reads them. -/
inductive Meta where
  | path (p : Path)
  | nameValue (p : Path) (value : MetaValue)
  | list (p : Path) (args : Except Diagnostic VersionFilter)

/-- A syn::Attribute: the engine reads its meta and re-serializes the whole
    attribute verbatim; the raw token content is the numeric payload. -/
structure Attribute where
  meta : Meta
  payload : Nat

/-- Attribute::path. -/
def Attribute.path : Attribute → Path
  | ⟨.path p, _⟩ => p
  | ⟨.nameValue p _, _⟩ => p
  | ⟨.list p _, _⟩ => p

/-- The configurable options of the #[versioning(...)]-macro. -/
structure Options where
  features : Bool
  nest_toplevel_modules : Bool
  deriving DecidableEq, Repr

/-- impl Default for Options. -/
def Options.default : Options := ⟨false, false⟩

/-- The loop of parse_input (src/versioning.rs): versions and options
    accumulate left to right and the first invalid meta aborts. -/
def parse_input_loop : List Meta → VersionList → Options → Except Diagnostic (VersionList × Options)
  | [], versions, opts => .ok (versions, opts)
  | .path p :: rest, versions, opts =>
      match p.ident with
      | some id => parse_input_loop rest ⟨versions.versions ++ [⟨id⟩]⟩ opts
      | none => .error ⟨p.span, .error, "Given version number is not a valid identifier"⟩
  | .nameValue p value :: rest, versions, opts =>
      if p.isIdent "features" then
        match value with
        | .litBool b => parse_input_loop rest versions { opts with features := b }
        | .other _ sp => .error ⟨sp, .error, "features option must be given a boolean (true/false)"⟩
      else if p.isIdent "nest_toplevel_modules" then
        match value with
        | .litBool b => parse_input_loop rest versions { opts with nest_toplevel_modules := b }
        | .other _ sp => .error ⟨sp, .error, "nest_toplevel_modules option must be given a boolean (true/false)"⟩
      else .error ⟨p.span, .error, "Unknown configuration parameter"⟩
  | .list p _ :: _, _, _ => .error ⟨p.span, .error, "Not a valid options to the #[versioning(...)]-macro"⟩

/-- parse_input from src/versioning.rs, after the surface tokens have been
    parsed into a comma-separated sequence of metas. -/
def parse_input (metas : List Meta) : Except Diagnostic (VersionList × Options) :=
  parse_input_loop metas ⟨[]⟩ Options.default

/-- get_version_attr from src/versioning.rs: the first #[version(...)] list
    attribute wins and its argument parse result is returned (parse errors
    included); later attributes are never looked at. -/
def get_version_attr : List Attribute → Except Diagnostic (Option VersionFilter)
  | [] => .ok none
  | attr :: rest =>
      match attr.meta with
      | .list p args =>
          if p.isIdent "version" then
            match args with
            | .ok filter => .ok (some filter)
            | .error d => .error d
          else get_version_attr rest
      | .nameValue _ _ => get_version_attr rest
      | .path _ => get_version_attr rest

/-- A syn::Visibility as the engine handles it: the engine only ever
    constructs Public and otherwise passes the original through. -/
inductive Visibility where
  | pub
  | restricted (payload : Nat)
  | inherited
  deriving DecidableEq, Repr

/-- Bracket shapes of re-serialized groups. -/
inductive Delim where
  | brace
  | paren
  deriving DecidableEq, Repr

/-- One token of an emitted TokenStream.  Streams are kept flat; a group is
    an open and a close delimiter around its contents; a re-serialized
    attribute keeps its path and raw token payload. -/
inductive OTok where
  | attr (path : Path) (payload : Nat)
  | vis (v : Visibility)
  | ident (s : String)
  | kw (s : String)
  | payload (n : Nat)
  | cfg (feature : String)
  | openDelim (d : Delim)
  | closeDelim (d : Delim)
  deriving DecidableEq, Repr

/-- token.surround: wraps a stream in its bracket pair. -/
def surround (d : Delim) (inner : List OTok) : List OTok :=
  OTok.openDelim d :: inner ++ [OTok.closeDelim d]

/-- generate_attrs from src/versioning.rs: re-serializes every attribute
    whose path is not `version`, in their original order. -/
def generate_attrs : List Attribute → List OTok
  | [] => []
  | attr :: rest =>
      if attr.path.isIdent "version" then generate_attrs rest
      else OTok.attr attr.path attr.payload :: generate_attrs rest

/-- Failure of the generation pipeline: a propagated Diagnostic, or a Rust
    panic (a positional operator met a version absent from the registry). -/
inductive Err where
  | diag (d : Diagnostic)
  | panicked (msg : String)
  deriving DecidableEq, Repr

/-- The filter gate at the top of every generate_filtered_* function: fetch
    the #[version(...)] attribute; when present, verify it against the
    registry and then evaluate it; the boolean says whether the node is
    kept.  Nodes without an attribute list are always kept. -/
def filterGate (attrs : Option (List Attribute)) (versions : VersionList) (version : Version) : Except Err Bool :=
  match attrs with
  | none => .ok true
  | some attrs =>
      match get_version_attr attrs with
      | .error d => .error (.diag d)
      | .ok none => .ok true
      | .ok (some filter) =>
          match filter.verify versions with
          | .error d => .error (.diag d)
          | .ok _ =>
              match filter.matches versions version with
              | none => .error (.panicked panicUnknownVersion)
              | some b => .ok b

/-- A syn::Field: attributes, visibility, and the rest of the field (name,
    colon, type) as a verbatim payload. -/
structure Field where
  attrs : List Attribute
  vis : Visibility
  payload : Nat

/-- A punctuated sequence: each element paired with whether a comma token
    follows it in the source. -/
abbrev Punctuated (α : Type) := List (α × Bool)

/-- syn::Fields of a struct or an enum variant. -/
inductive Fields where
  | named (fields : Punctuated Field)
  | unnamed (fields : Punctuated Field)
  | unit

/-- A syn::Variant of an enum; the discriminant is its verbatim payload. -/
structure Variant where
  attrs : List Attribute
  ident : String
  fields : Fields
  discriminant : Option Nat

/-- generate_filtered_field from src/versioning.rs. -/
def generate_filtered_field (field : Field) (versions : VersionList) (version : Version) : Except Err (Option (List OTok)) :=
  match filterGate (some field.attrs) versions version with
  | .error e => .error e
  | .ok false => .ok none
  | .ok true => .ok (some (generate_attrs field.attrs ++ [OTok.vis field.vis, OTok.payload field.payload]))

/-- The field loop shared by structs, unions and variants: kept fields are
    emitted together with their trailing comma token. -/
def generate_filtered_fields (fields : Punctuated Field) (versions : VersionList) (version : Version) : Except Err (List OTok) :=
  match fields with
  | [] => .ok []
  | (field, comma) :: rest =>
      match generate_filtered_field field versions version with
      | .error e => .error e
      | .ok none => generate_filtered_fields rest versions version
      | .ok (some s) =>
          match generate_filtered_fields rest versions version with
          | .error e => .error e
          | .ok restS => .ok (s ++ (if comma then [OTok.kw ","] else []) ++ restS)

/-- The Fields serialization of structs and variants: named fields in
    braces, unnamed fields in parentheses, unit nothing. -/
def generate_filtered_fields_group (fields : Fields) (versions : VersionList) (version : Version) : Except Err (List OTok) :=
  match fields with
  | .named fs =>
      match generate_filtered_fields fs versions version with
      | .error e => .error e
      | .ok children => .ok (surround .brace children)
  | .unnamed fs =>
      match generate_filtered_fields fs versions version with
      | .error e => .error e
      | .ok children => .ok (surround .paren children)
  | .unit => .ok []

/-- generate_filtered_variant from src/versioning.rs. -/
def generate_filtered_variant (variant : Variant) (versions : VersionList) (version : Version) : Except Err (Option (List OTok)) :=
  match filterGate (some variant.attrs) versions version with
  | .error e => .error e
  | .ok false => .ok none
  | .ok true =>
      match generate_filtered_fields_group variant.fields versions version with
      | .error e => .error e
      | .ok fieldsS =>
          .ok (some (generate_attrs variant.attrs ++ OTok.ident variant.ident :: fieldsS ++
            (match variant.discriminant with
             | some d => [OTok.payload d]
             | none => [])))

/-- The variant loop of Item::Enum: kept variants are emitted together
    with their trailing comma token. -/
def generate_filtered_variants (variants : Punctuated Variant) (versions : VersionList) (version : Version) : Except Err (List OTok) :=
  match variants with
  | [] => .ok []
  | (variant, comma) :: rest =>
      match generate_filtered_variant variant versions version with
      | .error e => .error e
      | .ok none => generate_filtered_variants rest versions version
      | .ok (some s) =>
          match generate_filtered_variants rest versions version with
          | .error e => .error e
          | .ok restS => .ok (s ++ (if comma then [OTok.kw ","] else []) ++ restS)

/-- A syn::TraitItem: each form keeps its attribute list and renders the
    rest verbatim; Verbatim has no attribute list. -/
inductive TraitItem where
  | const (attrs : List Attribute) (payload : Nat)
  | fn (attrs : List Attribute) (payload : Nat)
  | mac (attrs : List Attribute) (payload : Nat)
  | type (attrs : List Attribute) (payload : Nat)
  | verbatim (payload : Nat)

/-- trait_item_attrs from src/versioning.rs. -/
def trait_item_attrs : TraitItem → Option (List Attribute)
  | .const attrs _ => some attrs
  | .fn attrs _ => some attrs
  | .mac attrs _ => some attrs
  | .type attrs _ => some attrs
  | .verbatim _ => none

/-- generate_filtered_trait_item from src/versioning.rs. -/
def generate_filtered_trait_item (item : TraitItem) (versions : VersionList) (version : Version) : Except Err (Option (List OTok)) :=
  match filterGate (trait_item_attrs item) versions version with
  | .error e => .error e
  | .ok false => .ok none
  | .ok true =>
      match item with
      | .const attrs payload => .ok (some (generate_attrs attrs ++ [OTok.payload payload]))
      | .fn attrs payload => .ok (some (generate_attrs attrs ++ [OTok.payload payload]))
      | .mac attrs payload => .ok (some (generate_attrs attrs ++ [OTok.payload payload]))
      | .type attrs payload => .ok (some (generate_attrs attrs ++ [OTok.payload payload]))
      | .verbatim payload => .ok (some [OTok.payload payload])

/-- A syn::ForeignItem; Fn, Static and Type carry a visibility that is
    re-emitted in front of their verbatim payload. -/
inductive ForeignItem where
  | fn (attrs : List Attribute) (vis : Visibility) (payload : Nat)
  | mac (attrs : List Attribute) (payload : Nat)
  | static (attrs : List Attribute) (vis : Visibility) (payload : Nat)
  | type (attrs : List Attribute) (vis : Visibility) (payload : Nat)
  | verbatim (payload : Nat)

/-- foreign_item_attrs from src/versioning.rs. -/
def foreign_item_attrs : ForeignItem → Option (List Attribute)
  | .fn attrs _ _ => some attrs
  | .mac attrs _ => some attrs
  | .static attrs _ _ => some attrs
  | .type attrs _ _ => some attrs
  | .verbatim _ => none

/-- generate_filtered_foreign_item from src/versioning.rs. -/
def generate_filtered_foreign_item (item : ForeignItem) (versions : VersionList) (version : Version) : Except Err (Option (List OTok)) :=
  match filterGate (foreign_item_attrs item) versions version with
  | .error e => .error e
  | .ok false => .ok none
  | .ok true =>
      match item with
      | .fn attrs vis payload => .ok (some (generate_attrs attrs ++ [OTok.vis vis, OTok.payload payload]))
      | .mac attrs payload => .ok (some (generate_attrs attrs ++ [OTok.payload payload]))
      | .static attrs vis payload => .ok (some (generate_attrs attrs ++ [OTok.vis vis, OTok.payload payload]))
      | .type attrs vis payload => .ok (some (generate_attrs attrs ++ [OTok.vis vis, OTok.payload payload]))
      | .verbatim payload => .ok (some [OTok.payload payload])

/-- A syn::ImplItem; Const, Fn and Type carry a visibility that is
    re-emitted in front of their verbatim payload. -/
inductive ImplItem where
  | const (attrs : List Attribute) (vis : Visibility) (payload : Nat)
  | fn (attrs : List Attribute) (vis : Visibility) (payload : Nat)
  | mac (attrs : List Attribute) (payload : Nat)
  | type (attrs : List Attribute) (vis : Visibility) (payload : Nat)
  | verbatim (payload : Nat)

/-- impl_item_attrs from src/versioning.rs. -/
def impl_item_attrs : ImplItem → Option (List Attribute)
  | .const attrs _ _ => some attrs
  | .fn attrs _ _ => some attrs
  | .mac attrs _ => some attrs
  | .type attrs _ _ => some attrs
  | .verbatim _ => none

/-- generate_filtered_impl_item from src/versioning.rs. -/
def generate_filtered_impl_item (item : ImplItem) (versions : VersionList) (version : Version) : Except Err (Option (List OTok)) :=
  match filterGate (impl_item_attrs item) versions version with
  | .error e => .error e
  | .ok false => .ok none
  | .ok true =>
      match item with
      | .const attrs vis payload => .ok (some (generate_attrs attrs ++ [OTok.vis vis, OTok.payload payload]))
      | .fn attrs vis payload => .ok (some (generate_attrs attrs ++ [OTok.vis vis, OTok.payload payload]))
      | .mac attrs payload => .ok (some (generate_attrs attrs ++ [OTok.payload payload]))
      | .type attrs vis payload => .ok (some (generate_attrs attrs ++ [OTok.vis vis, OTok.payload payload]))
      | .verbatim payload => .ok (some [OTok.payload payload])

/-- The member loop of Item::Trait: kept members are concatenated. -/
def generate_filtered_trait_items (items : List TraitItem) (versions : VersionList) (version : Version) : Except Err (List OTok) :=
  match items with
  | [] => .ok []
  | item :: rest =>
      match generate_filtered_trait_item item versions version with
      | .error e => .error e
      | .ok none => generate_filtered_trait_items rest versions version
      | .ok (some s) =>
          match generate_filtered_trait_items rest versions version with
          | .error e => .error e
          | .ok restS => .ok (s ++ restS)

/-- The member loop of Item::ForeignMod: kept members are concatenated. -/
def generate_filtered_foreign_items (items : List ForeignItem) (versions : VersionList) (version : Version) : Except Err (List OTok) :=
  match items with
  | [] => .ok []
  | item :: rest =>
      match generate_filtered_foreign_item item versions version with
      | .error e => .error e
      | .ok none => generate_filtered_foreign_items rest versions version
      | .ok (some s) =>
          match generate_filtered_foreign_items rest versions version with
          | .error e => .error e
          | .ok restS => .ok (s ++ restS)

/-- The member loop of Item::Impl: kept members are concatenated. -/
def generate_filtered_impl_items (items : List ImplItem) (versions : VersionList) (version : Version) : Except Err (List OTok) :=
  match items with
  | [] => .ok []
  | item :: rest =>
      match generate_filtered_impl_item item versions version with
      | .error e => .error e
      | .ok none => generate_filtered_impl_items rest versions version
      | .ok (some s) =>
          match generate_filtered_impl_items rest versions version with
          | .error e => .error e
          | .ok restS => .ok (s ++ restS)

/-- A syn::Item restricted to what generate_filtered_item distinguishes.
    Syntax that is only ever re-emitted verbatim (generics, signatures,
    bodies, types, renames, the unsafety and abi tokens) is carried as
    numeric payloads.  ForeignMod and Impl keep their span because the
    engine raises a diagnostic located at them. -/
inductive Item where
  | mod (attrs : List Attribute) (vis : Visibility) (ident : String) (content : Option (List Item)) (semi : Bool)
  | enum (attrs : List Attribute) (vis : Visibility) (ident : String) (generics : Nat) (variants : Punctuated Variant)
  | struct (attrs : List Attribute) (vis : Visibility) (ident : String) (generics : Nat) (fields : Fields) (semi : Bool)
  | union (attrs : List Attribute) (vis : Visibility) (ident : String) (generics : Nat) (fields : Punctuated Field)
  | trait (attrs : List Attribute) (vis : Visibility) (payload : Nat) (items : List TraitItem)
  | foreignMod (attrs : List Attribute) (span : Span) (payload : Nat) (items : List ForeignItem)
  | impl (attrs : List Attribute) (span : Span) (payload : Nat) (items : List ImplItem)
  | const (attrs : List Attribute) (vis : Visibility) (payload : Nat)
  | externCrate (attrs : List Attribute) (vis : Visibility) (payload : Nat)
  | fn (attrs : List Attribute) (vis : Visibility) (payload : Nat)
  | mac (attrs : List Attribute) (payload : Nat)
  | static (attrs : List Attribute) (vis : Visibility) (payload : Nat)
  | traitAlias (attrs : List Attribute) (vis : Visibility) (payload : Nat)
  | typeAlias (attrs : List Attribute) (vis : Visibility) (payload : Nat)
  | useItem (attrs : List Attribute) (vis : Visibility) (payload : Nat)
  | verbatim (payload : Nat)

/-- item_attrs from src/versioning.rs: every known variant except Verbatim
    has attributes. -/
def item_attrs : Item → Option (List Attribute)
  | .mod attrs _ _ _ _ => some attrs
  | .enum attrs _ _ _ _ => some attrs
  | .struct attrs _ _ _ _ _ => some attrs
  | .union attrs _ _ _ _ => some attrs
  | .trait attrs _ _ _ => some attrs
  | .foreignMod attrs _ _ _ => some attrs
  | .impl attrs _ _ _ => some attrs
  | .const attrs _ _ => some attrs
  | .externCrate attrs _ _ => some attrs
  | .fn attrs _ _ => some attrs
  | .mac attrs _ => some attrs
  | .static attrs _ _ => some attrs
  | .traitAlias attrs _ _ => some attrs
  | .typeAlias attrs _ _ => some attrs
  | .useItem attrs _ _ => some attrs
  | .verbatim _ => none

/-- item_vis from src/versioning.rs: ForeignMod, Impl, Macro and Verbatim
    have no visibility. -/
def item_vis : Item → Option Visibility
  | .mod _ vis _ _ _ => some vis
  | .enum _ vis _ _ _ => some vis
  | .struct _ vis _ _ _ _ => some vis
  | .union _ vis _ _ _ => some vis
  | .trait _ vis _ _ => some vis
  | .foreignMod _ _ _ _ => none
  | .impl _ _ _ _ => none
  | .const _ vis _ => some vis
  | .externCrate _ vis _ => some vis
  | .fn _ vis _ => some vis
  | .mac _ _ => none
  | .static _ vis _ => some vis
  | .traitAlias _ vis _ => some vis
  | .typeAlias _ vis _ => some vis
  | .useItem _ vis _ => some vis
  | .verbatim _ => none

/-- matches!(item, Item::Mod(_)). -/
def Item.isMod : Item → Bool
  | .mod _ _ _ _ _ => true
  | _ => false

/-- The Diagnostic text for a foreign block meeting the force-public policy. -/
def foreignModMessage : String :=
  "Cannot use #[versioning(...)] on a foreign block; instead, wrap it in a module to decide internal visibility yourself"

/-- The Diagnostic text for an impl block meeting the force-public policy. -/
def implMessage : String :=
  "Cannot use #[versioning(...)] on an impl block; instead, wrap it in a module to decide internal visibility yourself"

/-- The common prologue of generate_filtered_item: a gate error propagates,
    a non-matching filter prunes the node, and otherwise the serialization
    body runs. -/
def afterGate (r : Except Err Bool) (body : Unit → Except Err (Option (List OTok))) : Except Err (Option (List OTok)) :=
  match r with
  | .error e => .error e
  | .ok false => .ok none
  | .ok true => body ()

mutual

/-- generate_filtered_item from src/versioning.rs: the filter gate first,
    then the per-kind re-serialization, recursing into module contents.
    A top-level module that is not being force-published is renamed in
    place to the version's name. -/
def generate_filtered_item (item : Item) (versions : VersionList) (version : Version) (toplevel : Bool) (force_public : Bool) : Except Err (Option (List OTok)) :=
  afterGate (filterGate (item_attrs item) versions version) (fun _ =>
      match item with
      | .mod attrs vis ident content semi =>
          let head := generate_attrs attrs ++
            [OTok.vis (if force_public then Visibility.pub else vis), OTok.kw "mod",
             OTok.ident (if toplevel && !force_public then version.name else ident)]
          match content with
          | some items =>
              match generate_filtered_items items versions version with
              | .error e => .error e
              | .ok children => .ok (some (head ++ surround .brace children ++ (if semi then [OTok.kw ";"] else [])))
          | none => .ok (some (head ++ (if semi then [OTok.kw ";"] else [])))
      | .enum attrs vis ident generics variants =>
          match generate_filtered_variants variants versions version with
          | .error e => .error e
          | .ok children =>
              .ok (some (generate_attrs attrs ++
                [OTok.vis (if force_public then Visibility.pub else vis), OTok.kw "enum",
                 OTok.ident ident, OTok.payload generics] ++ surround .brace children))
      | .struct attrs vis ident generics fields semi =>
          match generate_filtered_fields_group fields versions version with
          | .error e => .error e
          | .ok fieldsS =>
              .ok (some (generate_attrs attrs ++
                [OTok.vis (if force_public then Visibility.pub else vis), OTok.kw "struct",
                 OTok.ident ident, OTok.payload generics] ++ fieldsS ++ (if semi then [OTok.kw ";"] else [])))
      | .union attrs vis ident generics fields =>
          match generate_filtered_fields fields versions version with
          | .error e => .error e
          | .ok children =>
              .ok (some (generate_attrs attrs ++
                [OTok.vis (if force_public then Visibility.pub else vis), OTok.kw "union",
                 OTok.ident ident, OTok.payload generics] ++ surround .brace children))
      | .trait attrs vis payload items =>
          match generate_filtered_trait_items items versions version with
          | .error e => .error e
          | .ok children =>
              .ok (some (generate_attrs attrs ++
                [OTok.vis (if force_public then Visibility.pub else vis), OTok.payload payload] ++
                surround .brace children))
      | .foreignMod attrs span payload items =>
          if force_public then .error (.diag ⟨span, .error, foreignModMessage⟩)
          else
            match generate_filtered_foreign_items items versions version with
            | .error e => .error e
            | .ok children =>
                .ok (some (generate_attrs attrs ++ [OTok.payload payload] ++ surround .brace children))
      | .impl attrs span payload items =>
          if force_public then .error (.diag ⟨span, .error, implMessage⟩)
          else
            match generate_filtered_impl_items items versions version with
            | .error e => .error e
            | .ok children =>
                .ok (some (generate_attrs attrs ++ [OTok.payload payload] ++ surround .brace children))
      | .const attrs vis payload =>
          .ok (some (generate_attrs attrs ++ [OTok.vis (if force_public then Visibility.pub else vis), OTok.payload payload]))
      | .externCrate attrs vis payload =>
          .ok (some (generate_attrs attrs ++ [OTok.vis (if force_public then Visibility.pub else vis), OTok.payload payload]))
      | .fn attrs vis payload =>
          .ok (some (generate_attrs attrs ++ [OTok.vis (if force_public then Visibility.pub else vis), OTok.payload payload]))
      | .mac attrs payload =>
          .ok (some (generate_attrs attrs ++ [OTok.payload payload]))
      | .static attrs vis payload =>
          .ok (some (generate_attrs attrs ++ [OTok.vis (if force_public then Visibility.pub else vis), OTok.payload payload]))
      | .traitAlias attrs vis payload =>
          .ok (some (generate_attrs attrs ++ [OTok.vis (if force_public then Visibility.pub else vis), OTok.payload payload]))
      | .typeAlias attrs vis payload =>
          .ok (some (generate_attrs attrs ++ [OTok.vis (if force_public then Visibility.pub else vis), OTok.payload payload]))
      | .useItem attrs vis payload =>
          .ok (some (generate_attrs attrs ++ [OTok.vis (if force_public then Visibility.pub else vis), OTok.payload payload]))
      | .verbatim payload => .ok (some [OTok.payload payload]))

/-- The module-content loop of generate_filtered_item: children are
    filtered with toplevel and force_public both false, kept ones are
    concatenated. -/
def generate_filtered_items (items : List Item) (versions : VersionList) (version : Version) : Except Err (List OTok) :=
  match items with
  | [] => .ok []
  | item :: rest =>
      match generate_filtered_item item versions version false false with
      | .error e => .error e
      | .ok none => generate_filtered_items rest versions version
      | .ok (some s) =>
          match generate_filtered_items rest versions version with
          | .error e => .error e
          | .ok restS => .ok (s ++ restS)

end

/-- The per-version loop of `call` (src/versioning.rs): one filtered stream
    per surviving version, wrapped in a version-named module and
    feature-gated as configured. -/
def call_loop (versions : VersionList) (opts : Options) (item : Item) : List Version → Except Err (List (List OTok))
  | [] => .ok []
  | version :: rest =>
      let wrap_in_mod : Bool := !item.isMod || opts.nest_toplevel_modules
      let old_vis := item_vis item
      match generate_filtered_item item versions version true wrap_in_mod with
      | .error e => .error e
      | .ok none => call_loop versions opts item rest
      | .ok (some stream) =>
          let stream := if wrap_in_mod then
              OTok.vis (old_vis.getD Visibility.inherited) :: OTok.kw "mod" :: OTok.ident version.name :: surround .brace stream
            else stream
          let stream := if opts.features then OTok.cfg version.name :: stream else stream
          match call_loop versions opts item rest with
          | .error e => .error e
          | .ok restS => .ok (stream :: restS)

/-- `call` from src/versioning.rs after input parsing: the concatenation of
    the per-version streams, or a single error and no output at all. -/
def call (versions : VersionList) (opts : Options) (item : Item) : Except Err (List OTok) :=
  match call_loop versions opts item versions.versions with
  | .error e => .error e
  | .ok impls => .ok impls.flatten

/-- Whether get_version_attr recognizes this attribute as the filter: a
    list meta whose path is `version`. -/
def isFilterAttr (a : Attribute) : Bool :=
  match a.meta with
  | .list p _ => p.isIdent "version"
  | .nameValue _ _ => false
  | .path _ => false

/-- The attribute list carries no recognized filter. -/
def attrsNoFilter (attrs : List Attribute) : Bool :=
  attrs.all (fun a => !isFilterAttr a)

/-- No filter anywhere on a field. -/
def fieldNoFilter (f : Field) : Bool := attrsNoFilter f.attrs

/-- No filter anywhere in a punctuated field list. -/
def fieldsPunctNoFilter (fs : Punctuated Field) : Bool :=
  fs.all (fun fc => fieldNoFilter fc.1)

/-- No filter anywhere in a Fields value. -/
def fieldsNoFilter : Fields → Bool
  | .named fs => fieldsPunctNoFilter fs
  | .unnamed fs => fieldsPunctNoFilter fs
  | .unit => true

/-- No filter anywhere on a variant or its fields. -/
def variantNoFilter (v : Variant) : Bool :=
  attrsNoFilter v.attrs && fieldsNoFilter v.fields

/-- No filter anywhere in a punctuated variant list. -/
def variantsNoFilter (vs : Punctuated Variant) : Bool :=
  vs.all (fun vc => variantNoFilter vc.1)

/-- No filter on a trait member. -/
def traitItemNoFilter (t : TraitItem) : Bool :=
  match trait_item_attrs t with
  | some attrs => attrsNoFilter attrs
  | none => true

/-- No filter on a foreign-block member. -/
def foreignItemNoFilter (t : ForeignItem) : Bool :=
  match foreign_item_attrs t with
  | some attrs => attrsNoFilter attrs
  | none => true

/-- No filter on an impl member. -/
def implItemNoFilter (t : ImplItem) : Bool :=
  match impl_item_attrs t with
  | some attrs => attrsNoFilter attrs
  | none => true

mutual

/-- No node of the item subtree carries a filter. -/
def itemNoFilter : Item → Bool
  | .mod attrs _ _ content _ => attrsNoFilter attrs && contentNoFilter content
  | .enum attrs _ _ _ variants => attrsNoFilter attrs && variantsNoFilter variants
  | .struct attrs _ _ _ fields _ => attrsNoFilter attrs && fieldsNoFilter fields
  | .union attrs _ _ _ fields => attrsNoFilter attrs && fieldsPunctNoFilter fields
  | .trait attrs _ _ items => attrsNoFilter attrs && items.all traitItemNoFilter
  | .foreignMod attrs _ _ items => attrsNoFilter attrs && items.all foreignItemNoFilter
  | .impl attrs _ _ items => attrsNoFilter attrs && items.all implItemNoFilter
  | .const attrs _ _ => attrsNoFilter attrs
  | .externCrate attrs _ _ => attrsNoFilter attrs
  | .fn attrs _ _ => attrsNoFilter attrs
  | .mac attrs _ => attrsNoFilter attrs
  | .static attrs _ _ => attrsNoFilter attrs
  | .traitAlias attrs _ _ => attrsNoFilter attrs
  | .typeAlias attrs _ _ => attrsNoFilter attrs
  | .useItem attrs _ _ => attrsNoFilter attrs
  | .verbatim _ => true

/-- No filter in an optional module body. -/
def contentNoFilter : Option (List Item) → Bool
  | some items => itemsNoFilter items
  | none => true

/-- No node of any item of the list carries a filter. -/
def itemsNoFilter : List Item → Bool
  | [] => true
  | i :: rest => itemNoFilter i && itemsNoFilter rest

end

/-- The token is not an attribute whose path is `version`. -/
def tokClean : OTok → Bool
  | OTok.attr p _ => !(p.isIdent "version")
  | _ => true

/-- No token of the stream is an attribute whose path is `version`; streams
    are flat, so this covers the contents of every bracketed group. -/
def streamClean : List OTok → Bool
  | [] => true
  | t :: s => tokClean t && streamClean s

/-- The honored (first recognized) filter of a field is f. -/
def fieldHasFilter (fd : Field) (f : VersionFilter) : Prop :=
  get_version_attr fd.attrs = Except.ok (some f)

/-- Emission of a punctuated field list reaches a field whose honored
    filter is f: the fields before it were processed without error (kept
    or pruned), so the loop goes on to consult that field's filter. -/
def fieldsReach (fs : Punctuated Field) (versions : VersionList) (version : Version)
    (f : VersionFilter) : Prop :=
  ∃ pre fd c post, fs = pre ++ (fd, c) :: post ∧
    (∀ p ∈ pre, ∃ o, generate_filtered_field p.1 versions version = Except.ok o) ∧
    fieldHasFilter fd f

/-- Emission of a Fields value reaches a field whose honored filter is f. -/
def fieldsGroupReach (fields : Fields) (versions : VersionList) (version : Version)
    (f : VersionFilter) : Prop :=
  match fields with
  | .named fs => fieldsReach fs versions version f
  | .unnamed fs => fieldsReach fs versions version f
  | .unit => False

/-- Emission of a variant consults f: either as the variant's own honored
    filter, or (its own gate having let it through) on one of its fields. -/
def variantReach (vr : Variant) (versions : VersionList) (version : Version)
    (f : VersionFilter) : Prop :=
  get_version_attr vr.attrs = Except.ok (some f) ∨
    (filterGate (some vr.attrs) versions version = Except.ok true ∧
      fieldsGroupReach vr.fields versions version f)

/-- Emission of a punctuated variant list reaches a node whose honored
    filter is f. -/
def variantsReach (vs : Punctuated Variant) (versions : VersionList) (version : Version)
    (f : VersionFilter) : Prop :=
  ∃ pre vr c post, vs = pre ++ (vr, c) :: post ∧
    (∀ p ∈ pre, ∃ o, generate_filtered_variant p.1 versions version = Except.ok o) ∧
    variantReach vr versions version f

/-- The honored filter of a trait member is f. -/
def traitItemHasFilter (t : TraitItem) (f : VersionFilter) : Prop :=
  ∃ attrs, trait_item_attrs t = some attrs ∧ get_version_attr attrs = Except.ok (some f)

/-- Emission of a trait member list reaches a member whose honored filter
    is f. -/
def traitItemsReach (ts : List TraitItem) (versions : VersionList) (version : Version)
    (f : VersionFilter) : Prop :=
  ∃ pre t post, ts = pre ++ t :: post ∧
    (∀ p ∈ pre, ∃ o, generate_filtered_trait_item p versions version = Except.ok o) ∧
    traitItemHasFilter t f

/-- The honored filter of a foreign-block member is f. -/
def foreignItemHasFilter (t : ForeignItem) (f : VersionFilter) : Prop :=
  ∃ attrs, foreign_item_attrs t = some attrs ∧ get_version_attr attrs = Except.ok (some f)

/-- Emission of a foreign-block member list reaches a member whose honored
    filter is f. -/
def foreignItemsReach (ts : List ForeignItem) (versions : VersionList) (version : Version)
    (f : VersionFilter) : Prop :=
  ∃ pre t post, ts = pre ++ t :: post ∧
    (∀ p ∈ pre, ∃ o, generate_filtered_foreign_item p versions version = Except.ok o) ∧
    foreignItemHasFilter t f

/-- The honored filter of an impl member is f. -/
def implItemHasFilter (t : ImplItem) (f : VersionFilter) : Prop :=
  ∃ attrs, impl_item_attrs t = some attrs ∧ get_version_attr attrs = Except.ok (some f)

/-- Emission of an impl member list reaches a member whose honored filter
    is f. -/
def implItemsReach (ts : List ImplItem) (versions : VersionList) (version : Version)
    (f : VersionFilter) : Prop :=
  ∃ pre t post, ts = pre ++ t :: post ∧
    (∀ p ∈ pre, ∃ o, generate_filtered_impl_item p versions version = Except.ok o) ∧
    implItemHasFilter t f

/-- Emission of the item at arguments (toplevel, force_public) reaches a
    node whose honored filter annotation is f.  A node is reached through a
    container only when the container's own gate let it through and every
    sibling processed before it returned without error; foreign and impl
    members are reached only when force_public is off, since otherwise the
    unsupported-visibility diagnostic fires first; module children are
    always filtered at (toplevel, force_public) both false, as in the
    source. -/
inductive ItemReach (versions : VersionList) (version : Version) :
    Item → Bool → Bool → VersionFilter → Prop where
  | self (item : Item) (tl fp : Bool) (attrs : List Attribute) (f : VersionFilter) :
      item_attrs item = some attrs →
      get_version_attr attrs = Except.ok (some f) →
      ItemReach versions version item tl fp f
  | modChild (attrs : List Attribute) (vis : Visibility) (id : String)
      (pre : List Item) (mid : Item) (post : List Item) (semi : Bool)
      (tl fp : Bool) (f : VersionFilter) :
      filterGate (some attrs) versions version = Except.ok true →
      (∀ j ∈ pre, ∃ o, generate_filtered_item j versions version false false = Except.ok o) →
      ItemReach versions version mid false false f →
      ItemReach versions version (.mod attrs vis id (some (pre ++ mid :: post)) semi) tl fp f
  | enumVariant (attrs : List Attribute) (vis : Visibility) (id : String) (generics : Nat)
      (variants : Punctuated Variant) (tl fp : Bool) (f : VersionFilter) :
      filterGate (some attrs) versions version = Except.ok true →
      variantsReach variants versions version f →
      ItemReach versions version (.enum attrs vis id generics variants) tl fp f
  | structField (attrs : List Attribute) (vis : Visibility) (id : String) (generics : Nat)
      (fields : Fields) (semi : Bool) (tl fp : Bool) (f : VersionFilter) :
      filterGate (some attrs) versions version = Except.ok true →
      fieldsGroupReach fields versions version f →
      ItemReach versions version (.struct attrs vis id generics fields semi) tl fp f
  | unionField (attrs : List Attribute) (vis : Visibility) (id : String) (generics : Nat)
      (fields : Punctuated Field) (tl fp : Bool) (f : VersionFilter) :
      filterGate (some attrs) versions version = Except.ok true →
      fieldsReach fields versions version f →
      ItemReach versions version (.union attrs vis id generics fields) tl fp f
  | traitMember (attrs : List Attribute) (vis : Visibility) (payload : Nat)
      (items : List TraitItem) (tl fp : Bool) (f : VersionFilter) :
      filterGate (some attrs) versions version = Except.ok true →
      traitItemsReach items versions version f →
      ItemReach versions version (.trait attrs vis payload items) tl fp f
  | foreignMember (attrs : List Attribute) (sp : Span) (payload : Nat)
      (items : List ForeignItem) (tl : Bool) (f : VersionFilter) :
      filterGate (some attrs) versions version = Except.ok true →
      foreignItemsReach items versions version f →
      ItemReach versions version (.foreignMod attrs sp payload items) tl false f
  | implMember (attrs : List Attribute) (sp : Span) (payload : Nat)
      (items : List ImplItem) (tl : Bool) (f : VersionFilter) :
      filterGate (some attrs) versions version = Except.ok true →
      implItemsReach items versions version f →
      ItemReach versions version (.impl attrs sp payload items) tl false f

/-!  Helper lemmas. -/

theorem position_isSome_of_any (p : α → Bool) (l : List α) (h : l.any p = true) :
    (position p l).isSome = true := by
  induction l with
  | nil => simp at h
  | cons a t ih =>
      by_cases hpa : p a = true
      · simp [position, hpa]
      · simp only [List.any_cons, Bool.or_eq_true] at h
        rcases h with h | h
        · exact absurd h hpa
        · simp [position, hpa, Option.isSome_map, ih h]

theorem beq_comm_str (a b : String) : (a == b) = (b == a) := by
  by_cases h : a = b
  · simp [h]
  · simp [beq_eq_false_iff_ne, h, Ne.symm h]

theorem any_name_beq_comm (l : List Version) (s : String) :
    l.any (fun w => w.name == s) = l.any (fun w => s == w.name) := by
  induction l with
  | nil => rfl
  | cons a t ih => simp only [List.any_cons, ih, beq_comm_str]

theorem position_eq_of_get (l : List Version) (s : String) (i : Nat) (hi : i < l.length)
    (hnd : (l.map Version.name).Nodup) (hget : (l.get ⟨i, hi⟩).name = s) :
    position (fun w => s == w.name) l = some i := by
  induction l generalizing i with
  | nil => exact absurd hi (by simp)
  | cons a t ih =>
      rw [List.map_cons, List.nodup_cons] at hnd
      cases i with
      | zero =>
          simp only [List.get] at hget
          simp [position, hget]
      | succ i =>
          simp only [List.get] at hget
          have hmem : s ∈ t.map Version.name := by
            rw [← hget]
            exact List.mem_map_of_mem Version.name (List.get_mem t i _)
          have hne : ¬(s == a.name) = true := by
            intro hcontra
            rw [beq_iff_eq] at hcontra
            exact hnd.1 (hcontra ▸ hmem)
          have hi' : i < t.length := Nat.lt_of_succ_lt_succ hi
          simp [position, hne, ih i hi' hnd.2 hget]

mutual

theorem matches_isSome_aux : ∀ (f : VersionFilter) (R : VersionList) (v : Version),
    f.verify R = .ok () → R.versions.any (fun w => v.name == w.name) = true →
    (f.matches R v).isSome = true
  | .version _, R, v, _, _ => by simp [VersionFilter.matches]
  | .atLeastExcl lit, R, v, hok, hv => by
      have h1 : R.versions.any (fun w => w.name == lit.value) = true := by
        by_contra hc
        rw [Bool.not_eq_true] at hc
        simp [VersionFilter.verify, hc] at hok
      obtain ⟨k1, hk1⟩ := Option.isSome_iff_exists.mp
        (position_isSome_of_any (fun w => lit.value == w.name) R.versions
          (by rw [← any_name_beq_comm]; exact h1))
      obtain ⟨k2, hk2⟩ := Option.isSome_iff_exists.mp
        (position_isSome_of_any (fun w => v.name == w.name) R.versions hv)
      simp [VersionFilter.matches, hk1, hk2]
  | .atLeast lit, R, v, hok, hv => by
      have h1 : R.versions.any (fun w => w.name == lit.value) = true := by
        by_contra hc
        rw [Bool.not_eq_true] at hc
        simp [VersionFilter.verify, hc] at hok
      obtain ⟨k1, hk1⟩ := Option.isSome_iff_exists.mp
        (position_isSome_of_any (fun w => lit.value == w.name) R.versions
          (by rw [← any_name_beq_comm]; exact h1))
      obtain ⟨k2, hk2⟩ := Option.isSome_iff_exists.mp
        (position_isSome_of_any (fun w => v.name == w.name) R.versions hv)
      simp [VersionFilter.matches, hk1, hk2]
  | .atMostExcl lit, R, v, hok, hv => by
      have h1 : R.versions.any (fun w => w.name == lit.value) = true := by
        by_contra hc
        rw [Bool.not_eq_true] at hc
        simp [VersionFilter.verify, hc] at hok
      obtain ⟨k1, hk1⟩ := Option.isSome_iff_exists.mp
        (position_isSome_of_any (fun w => lit.value == w.name) R.versions
          (by rw [← any_name_beq_comm]; exact h1))
      obtain ⟨k2, hk2⟩ := Option.isSome_iff_exists.mp
        (position_isSome_of_any (fun w => v.name == w.name) R.versions hv)
      simp [VersionFilter.matches, hk1, hk2]
  | .atMost lit, R, v, hok, hv => by
      have h1 : R.versions.any (fun w => w.name == lit.value) = true := by
        by_contra hc
        rw [Bool.not_eq_true] at hc
        simp [VersionFilter.verify, hc] at hok
      obtain ⟨k1, hk1⟩ := Option.isSome_iff_exists.mp
        (position_isSome_of_any (fun w => lit.value == w.name) R.versions
          (by rw [← any_name_beq_comm]; exact h1))
      obtain ⟨k2, hk2⟩ := Option.isSome_iff_exists.mp
        (position_isSome_of_any (fun w => v.name == w.name) R.versions hv)
      simp [VersionFilter.matches, hk1, hk2]
  | .not f, R, v, hok, hv => by
      have hf : f.verify R = .ok () := by
        simpa [VersionFilter.verify] using hok
      obtain ⟨b, hb⟩ := Option.isSome_iff_exists.mp (matches_isSome_aux f R v hf hv)
      simp [VersionFilter.matches, hb]
  | .any fs, R, v, hok, hv => by
      have hl : VersionFilter.verifyList fs R = .ok () := by
        simpa [VersionFilter.verify] using hok
      have heq : (VersionFilter.any fs).matches R v = VersionFilter.matchesAnyList fs R v false := by
        simp [VersionFilter.matches]
      rw [heq]
      exact matchesAnyList_isSome_aux fs R v false hl hv
  | .all fs, R, v, hok, hv => by
      have hl : VersionFilter.verifyList fs R = .ok () := by
        simpa [VersionFilter.verify] using hok
      by_cases he : fs.isEmpty = true
      · simp [VersionFilter.matches, he]
      · have heq : (VersionFilter.all fs).matches R v = VersionFilter.matchesAllList fs R v true := by
          simp [VersionFilter.matches, he]
        rw [heq]
        exact matchesAllList_isSome_aux fs R v true hl hv

theorem matchesAnyList_isSome_aux : ∀ (fs : List VersionFilter) (R : VersionList) (v : Version) (res : Bool),
    VersionFilter.verifyList fs R = .ok () → R.versions.any (fun w => v.name == w.name) = true →
    (VersionFilter.matchesAnyList fs R v res).isSome = true
  | [], R, v, res, _, _ => by simp [VersionFilter.matchesAnyList]
  | f :: fs, R, v, res, hok, hv => by
      cases hf : f.verify R with
      | error d => simp [VersionFilter.verifyList, hf] at hok
      | ok u =>
          have hrest : VersionFilter.verifyList fs R = .ok () := by
            simpa [VersionFilter.verifyList, hf] using hok
          cases res with
          | true =>
              have heq : VersionFilter.matchesAnyList (f :: fs) R v true = VersionFilter.matchesAnyList fs R v true := by
                simp [VersionFilter.matchesAnyList]
              rw [heq]
              exact matchesAnyList_isSome_aux fs R v true hrest hv
          | false =>
              have hfok : f.verify R = .ok () := by cases u; exact hf
              obtain ⟨b, hb⟩ := Option.isSome_iff_exists.mp (matches_isSome_aux f R v hfok hv)
              have heq : VersionFilter.matchesAnyList (f :: fs) R v false = VersionFilter.matchesAnyList fs R v b := by
                simp [VersionFilter.matchesAnyList, hb]
              rw [heq]
              exact matchesAnyList_isSome_aux fs R v b hrest hv

theorem matchesAllList_isSome_aux : ∀ (fs : List VersionFilter) (R : VersionList) (v : Version) (res : Bool),
    VersionFilter.verifyList fs R = .ok () → R.versions.any (fun w => v.name == w.name) = true →
    (VersionFilter.matchesAllList fs R v res).isSome = true
  | [], R, v, res, _, _ => by simp [VersionFilter.matchesAllList]
  | f :: fs, R, v, res, hok, hv => by
      cases hf : f.verify R with
      | error d => simp [VersionFilter.verifyList, hf] at hok
      | ok u =>
          have hrest : VersionFilter.verifyList fs R = .ok () := by
            simpa [VersionFilter.verifyList, hf] using hok
          cases res with
          | false =>
              have heq : VersionFilter.matchesAllList (f :: fs) R v false = VersionFilter.matchesAllList fs R v false := by
                simp [VersionFilter.matchesAllList]
              rw [heq]
              exact matchesAllList_isSome_aux fs R v false hrest hv
          | true =>
              have hfok : f.verify R = .ok () := by cases u; exact hf
              obtain ⟨b, hb⟩ := Option.isSome_iff_exists.mp (matches_isSome_aux f R v hfok hv)
              have heq : VersionFilter.matchesAllList (f :: fs) R v true = VersionFilter.matchesAllList fs R v b := by
                simp [VersionFilter.matchesAllList, hb]
              rw [heq]
              exact matchesAllList_isSome_aux fs R v b hrest hv

end

/-- C9: once a filter has been verified against the registry and the
    candidate's name occurs in the registry, matches returns a boolean:
    the unknown-version panic branches of the positional operators are
    unreachable under these preconditions. -/
theorem verified_matches_no_panic (f : VersionFilter) (R : VersionList) (v : Version)
    (hok : f.verify R = .ok ())
    (hv : R.versions.any (fun w => v.name == w.name) = true) :
    ∃ b, f.matches R v = some b :=
  Option.isSome_iff_exists.mp (matches_isSome_aux f R v hok hv)

/-- Witness for C9: min("v1") over the registry [v1, v2] with candidate v2. -/
theorem verified_matches_no_panic_witness :
    (VersionFilter.atLeast ⟨"v1", 0⟩).verify ⟨[⟨"v1"⟩, ⟨"v2"⟩]⟩ = .ok () ∧
    ((VersionList.mk [⟨"v1"⟩, ⟨"v2"⟩]).versions.any (fun w => Version.name ⟨"v2"⟩ == w.name) = true) ∧
    ∃ b, (VersionFilter.atLeast ⟨"v1", 0⟩).matches ⟨[⟨"v1"⟩, ⟨"v2"⟩]⟩ ⟨"v2"⟩ = some b :=
  ⟨by simp [VersionFilter.verify], by decide,
    verified_matches_no_panic _ _ _ (by simp [VersionFilter.verify]) (by decide)⟩

theorem generate_filtered_item_gate_error (item : Item) (versions : VersionList)
    (version : Version) (toplevel force_public : Bool) (e : Err)
    (h : filterGate (item_attrs item) versions version = .error e) :
    generate_filtered_item item versions version toplevel force_public = .error e := by
  rw [generate_filtered_item.eq_def, h]
  rfl

theorem filterGate_nofilter (attrs : List Attribute) (versions : VersionList) (version : Version)
    (h : get_version_attr attrs = .ok none) :
    filterGate (some attrs) versions version = .ok true := by
  simp [filterGate, h]

theorem filterGate_verify_error (attrs : List Attribute) (versions : VersionList)
    (version : Version) (f : VersionFilter) (d : Diagnostic)
    (hget : get_version_attr attrs = .ok (some f)) (hver : f.verify versions = .error d) :
    filterGate (some attrs) versions version = .error (.diag d) := by
  simp [filterGate, hget, hver]

theorem generate_impl_force_public (attrs : List Attribute) (sp : Span) (pl : Nat)
    (items : List ImplItem) (versions : VersionList) (w : Version) (tl : Bool)
    (h : get_version_attr attrs = .ok none) :
    generate_filtered_item (.impl attrs sp pl items) versions w tl true =
      .error (.diag ⟨sp, .error, implMessage⟩) := by
  rw [generate_filtered_item.eq_def]
  rw [show item_attrs (Item.impl attrs sp pl items) = some attrs from rfl]
  rw [filterGate_nofilter attrs versions w h]
  rfl

theorem generate_foreign_force_public (attrs : List Attribute) (sp : Span) (pl : Nat)
    (items : List ForeignItem) (versions : VersionList) (w : Version) (tl : Bool)
    (h : get_version_attr attrs = .ok none) :
    generate_filtered_item (.foreignMod attrs sp pl items) versions w tl true =
      .error (.diag ⟨sp, .error, foreignModMessage⟩) := by
  rw [generate_filtered_item.eq_def]
  rw [show item_attrs (Item.foreignMod attrs sp pl items) = some attrs from rfl]
  rw [filterGate_nofilter attrs versions w h]
  rfl

theorem call_error_first_version (versions : VersionList) (opts : Options) (item : Item)
    (v : Version) (vs : List Version) (e : Err)
    (hvs : versions.versions = v :: vs)
    (hgen : generate_filtered_item item versions v true
      (!item.isMod || opts.nest_toplevel_modules) = .error e) :
    call versions opts item = .error e := by
  simp [call, hvs, call_loop, hgen]

theorem generate_filtered_field_reach_error (fd : Field) (versions : VersionList)
    (version : Version) (f : VersionFilter) (d : Diagnostic)
    (hf : fieldHasFilter fd f) (hver : f.verify versions = .error d) :
    generate_filtered_field fd versions version = .error (.diag d) := by
  have hg := filterGate_verify_error fd.attrs versions version f d hf hver
  simp [generate_filtered_field, hg]

theorem fields_loop_error_at (versions : VersionList) (version : Version) (e : Err)
    (fd : Field) (c : Bool) (post : Punctuated Field)
    (hfd : generate_filtered_field fd versions version = .error e) :
    ∀ pre : Punctuated Field,
      (∀ p ∈ pre, ∃ o, generate_filtered_field p.1 versions version = Except.ok o) →
      generate_filtered_fields (pre ++ (fd, c) :: post) versions version = .error e := by
  intro pre
  induction pre with
  | nil =>
      intro _
      simp [generate_filtered_fields, hfd]
  | cons p pre' ih =>
      intro hpre
      obtain ⟨o, ho⟩ := hpre p (by simp)
      have hrest := ih (fun q hq => hpre q (by simp [hq]))
      obtain ⟨fd', c'⟩ := p
      cases o <;> simp [generate_filtered_fields, ho, hrest]

theorem generate_filtered_fields_group_reach_error (fields : Fields) (versions : VersionList)
    (version : Version) (f : VersionFilter) (d : Diagnostic)
    (hre : fieldsGroupReach fields versions version f) (hver : f.verify versions = .error d) :
    generate_filtered_fields_group fields versions version = .error (.diag d) := by
  cases fields with
  | named fs =>
      obtain ⟨pre, fd, c, post, hfs, hpre, hfd⟩ := hre
      subst hfs
      have hloop := fields_loop_error_at versions version (.diag d) fd c post
        (generate_filtered_field_reach_error fd versions version f d hfd hver) pre hpre
      simp [generate_filtered_fields_group, hloop]
  | unnamed fs =>
      obtain ⟨pre, fd, c, post, hfs, hpre, hfd⟩ := hre
      subst hfs
      have hloop := fields_loop_error_at versions version (.diag d) fd c post
        (generate_filtered_field_reach_error fd versions version f d hfd hver) pre hpre
      simp [generate_filtered_fields_group, hloop]
  | unit => exact False.elim hre

theorem generate_filtered_variant_reach_error (vr : Variant) (versions : VersionList)
    (version : Version) (f : VersionFilter) (d : Diagnostic)
    (hre : variantReach vr versions version f) (hver : f.verify versions = .error d) :
    generate_filtered_variant vr versions version = .error (.diag d) := by
  rcases hre with hself | ⟨hgate, hfields⟩
  · have hg := filterGate_verify_error vr.attrs versions version f d hself hver
    simp [generate_filtered_variant, hg]
  · have hfg := generate_filtered_fields_group_reach_error vr.fields versions version f d
      hfields hver
    simp [generate_filtered_variant, hgate, hfg]

theorem variants_loop_error_at (versions : VersionList) (version : Version) (e : Err)
    (vr : Variant) (c : Bool) (post : Punctuated Variant)
    (hvr : generate_filtered_variant vr versions version = .error e) :
    ∀ pre : Punctuated Variant,
      (∀ p ∈ pre, ∃ o, generate_filtered_variant p.1 versions version = Except.ok o) →
      generate_filtered_variants (pre ++ (vr, c) :: post) versions version = .error e := by
  intro pre
  induction pre with
  | nil =>
      intro _
      simp [generate_filtered_variants, hvr]
  | cons p pre' ih =>
      intro hpre
      obtain ⟨o, ho⟩ := hpre p (by simp)
      have hrest := ih (fun q hq => hpre q (by simp [hq]))
      obtain ⟨vr', c'⟩ := p
      cases o <;> simp [generate_filtered_variants, ho, hrest]

theorem generate_filtered_trait_item_reach_error (t : TraitItem) (versions : VersionList)
    (version : Version) (f : VersionFilter) (d : Diagnostic)
    (hf : traitItemHasFilter t f) (hver : f.verify versions = .error d) :
    generate_filtered_trait_item t versions version = .error (.diag d) := by
  obtain ⟨attrs, hattrs, hget⟩ := hf
  have hg := filterGate_verify_error attrs versions version f d hget hver
  simp [generate_filtered_trait_item, hattrs, hg]

theorem trait_items_loop_error_at (versions : VersionList) (version : Version) (e : Err)
    (t : TraitItem) (post : List TraitItem)
    (ht : generate_filtered_trait_item t versions version = .error e) :
    ∀ pre : List TraitItem,
      (∀ p ∈ pre, ∃ o, generate_filtered_trait_item p versions version = Except.ok o) →
      generate_filtered_trait_items (pre ++ t :: post) versions version = .error e := by
  intro pre
  induction pre with
  | nil =>
      intro _
      simp [generate_filtered_trait_items, ht]
  | cons p pre' ih =>
      intro hpre
      obtain ⟨o, ho⟩ := hpre p (by simp)
      have hrest := ih (fun q hq => hpre q (by simp [hq]))
      cases o <;> simp [generate_filtered_trait_items, ho, hrest]

theorem generate_filtered_foreign_item_reach_error (t : ForeignItem) (versions : VersionList)
    (version : Version) (f : VersionFilter) (d : Diagnostic)
    (hf : foreignItemHasFilter t f) (hver : f.verify versions = .error d) :
    generate_filtered_foreign_item t versions version = .error (.diag d) := by
  obtain ⟨attrs, hattrs, hget⟩ := hf
  have hg := filterGate_verify_error attrs versions version f d hget hver
  simp [generate_filtered_foreign_item, hattrs, hg]

theorem foreign_items_loop_error_at (versions : VersionList) (version : Version) (e : Err)
    (t : ForeignItem) (post : List ForeignItem)
    (ht : generate_filtered_foreign_item t versions version = .error e) :
    ∀ pre : List ForeignItem,
      (∀ p ∈ pre, ∃ o, generate_filtered_foreign_item p versions version = Except.ok o) →
      generate_filtered_foreign_items (pre ++ t :: post) versions version = .error e := by
  intro pre
  induction pre with
  | nil =>
      intro _
      simp [generate_filtered_foreign_items, ht]
  | cons p pre' ih =>
      intro hpre
      obtain ⟨o, ho⟩ := hpre p (by simp)
      have hrest := ih (fun q hq => hpre q (by simp [hq]))
      cases o <;> simp [generate_filtered_foreign_items, ho, hrest]

theorem generate_filtered_impl_item_reach_error (t : ImplItem) (versions : VersionList)
    (version : Version) (f : VersionFilter) (d : Diagnostic)
    (hf : implItemHasFilter t f) (hver : f.verify versions = .error d) :
    generate_filtered_impl_item t versions version = .error (.diag d) := by
  obtain ⟨attrs, hattrs, hget⟩ := hf
  have hg := filterGate_verify_error attrs versions version f d hget hver
  simp [generate_filtered_impl_item, hattrs, hg]

theorem impl_items_loop_error_at (versions : VersionList) (version : Version) (e : Err)
    (t : ImplItem) (post : List ImplItem)
    (ht : generate_filtered_impl_item t versions version = .error e) :
    ∀ pre : List ImplItem,
      (∀ p ∈ pre, ∃ o, generate_filtered_impl_item p versions version = Except.ok o) →
      generate_filtered_impl_items (pre ++ t :: post) versions version = .error e := by
  intro pre
  induction pre with
  | nil =>
      intro _
      simp [generate_filtered_impl_items, ht]
  | cons p pre' ih =>
      intro hpre
      obtain ⟨o, ho⟩ := hpre p (by simp)
      have hrest := ih (fun q hq => hpre q (by simp [hq]))
      cases o <;> simp [generate_filtered_impl_items, ho, hrest]

theorem items_loop_error_at (versions : VersionList) (version : Version) (e : Err)
    (mid : Item) (post : List Item)
    (hmid : generate_filtered_item mid versions version false false = .error e) :
    ∀ pre : List Item,
      (∀ j ∈ pre, ∃ o, generate_filtered_item j versions version false false = Except.ok o) →
      generate_filtered_items (pre ++ mid :: post) versions version = .error e := by
  intro pre
  induction pre with
  | nil =>
      intro _
      simp [generate_filtered_items, hmid]
  | cons j pre' ih =>
      intro hpre
      obtain ⟨o, ho⟩ := hpre j (by simp)
      have hrest := ih (fun q hq => hpre q (by simp [hq]))
      cases o <;> simp [generate_filtered_items, ho, hrest]

theorem itemReach_generate_error (versions : VersionList) (version : Version) (item : Item)
    (tl fp : Bool) (f : VersionFilter) (d : Diagnostic)
    (hre : ItemReach versions version item tl fp f) :
    f.verify versions = .error d →
    generate_filtered_item item versions version tl fp = .error (.diag d) := by
  induction hre with
  | self item tl fp attrs f hattrs hget =>
      intro hver
      exact generate_filtered_item_gate_error item versions version tl fp (.diag d)
        (by rw [hattrs]; exact filterGate_verify_error attrs versions version f d hget hver)
  | modChild attrs vis id pre mid post semi tl fp f hgate hpre hmid ih =>
      intro hver
      have hloop := items_loop_error_at versions version (.diag d) mid post (ih hver) pre hpre
      simp [generate_filtered_item, item_attrs, hgate, afterGate, hloop]
  | enumVariant attrs vis id generics variants tl fp f hgate hvr =>
      intro hver
      obtain ⟨pre, vr, c, post, hvs, hpre, hvrr⟩ := hvr
      subst hvs
      have hloop := variants_loop_error_at versions version (.diag d) vr c post
        (generate_filtered_variant_reach_error vr versions version f d hvrr hver) pre hpre
      simp [generate_filtered_item, item_attrs, hgate, afterGate, hloop]
  | structField attrs vis id generics fields semi tl fp f hgate hfr =>
      intro hver
      have hfg := generate_filtered_fields_group_reach_error fields versions version f d hfr hver
      simp [generate_filtered_item, item_attrs, hgate, afterGate, hfg]
  | unionField attrs vis id generics fields tl fp f hgate hfr =>
      intro hver
      obtain ⟨pre, fd, c, post, hfs, hpre, hfd⟩ := hfr
      subst hfs
      have hloop := fields_loop_error_at versions version (.diag d) fd c post
        (generate_filtered_field_reach_error fd versions version f d hfd hver) pre hpre
      simp [generate_filtered_item, item_attrs, hgate, afterGate, hloop]
  | traitMember attrs vis payload items tl fp f hgate hfr =>
      intro hver
      obtain ⟨pre, t, post, hts, hpre, htf⟩ := hfr
      subst hts
      have hloop := trait_items_loop_error_at versions version (.diag d) t post
        (generate_filtered_trait_item_reach_error t versions version f d htf hver) pre hpre
      simp [generate_filtered_item, item_attrs, hgate, afterGate, hloop]
  | foreignMember attrs sp payload items tl f hgate hfr =>
      intro hver
      obtain ⟨pre, t, post, hts, hpre, htf⟩ := hfr
      subst hts
      have hloop := foreign_items_loop_error_at versions version (.diag d) t post
        (generate_filtered_foreign_item_reach_error t versions version f d htf hver) pre hpre
      simp [generate_filtered_item, item_attrs, hgate, afterGate, hloop]
  | implMember attrs sp payload items tl f hgate hfr =>
      intro hver
      obtain ⟨pre, t, post, hts, hpre, htf⟩ := hfr
      subst hts
      have hloop := impl_items_loop_error_at versions version (.diag d) t post
        (generate_filtered_impl_item_reach_error t versions version f d htf hver) pre hpre
      simp [generate_filtered_item, item_attrs, hgate, afterGate, hloop]

theorem call_loop_error_at (versions : VersionList) (opts : Options) (item : Item) (e : Err)
    (version : Version) (post : List Version)
    (hmid : generate_filtered_item item versions version true
      (!item.isMod || opts.nest_toplevel_modules) = .error e) :
    ∀ pre : List Version,
      (∀ u ∈ pre, ∃ o, generate_filtered_item item versions u true
        (!item.isMod || opts.nest_toplevel_modules) = Except.ok o) →
      call_loop versions opts item (pre ++ version :: post) = .error e := by
  intro pre
  induction pre with
  | nil =>
      intro _
      simp [call_loop, hmid]
  | cons u pre' ih =>
      intro hpre
      obtain ⟨o, ho⟩ := hpre u (by simp)
      have hrest := ih (fun q hq => hpre q (by simp [hq]))
      cases o <;> simp [call_loop, ho, hrest]

theorem call_reach_error (versions : VersionList) (opts : Options) (item : Item)
    (f : VersionFilter) (d : Diagnostic) (pre : List Version) (version : Version)
    (post : List Version)
    (hvs : versions.versions = pre ++ version :: post)
    (hpre : ∀ u ∈ pre, ∃ o, generate_filtered_item item versions u true
      (!item.isMod || opts.nest_toplevel_modules) = Except.ok o)
    (hre : ItemReach versions version item true (!item.isMod || opts.nest_toplevel_modules) f)
    (hver : f.verify versions = .error d) :
    call versions opts item = .error (.diag d) := by
  have hgen := itemReach_generate_error versions version item true
    (!item.isMod || opts.nest_toplevel_modules) f d hre hver
  have hloop := call_loop_error_at versions opts item (.diag d) version post hgen pre hpre
  simp [call, hvs, hloop]

/-- C3: a positional filter naming a version absent from the registry makes
    verification fail with the unknown-version diagnostic carrying the
    literal and its location; any node reached during emission (the root,
    or a descendant the engine actually gets to: every enclosing gate let
    the walk through and every sibling processed before it succeeded)
    whose honored filter fails verification aborts the emission of the
    whole tree with that diagnostic, hence the whole invocation once the
    versions before the failing one pass (and an error result carries no
    output at all, so zero variants are emitted); concretely, a field
    tagged AtMost("v9_9_9") deep inside a module aborts the whole call
    against the registry [v1, v2]. -/
theorem unknown_positional_reference_aborts :
    (∀ (R : VersionList) (lit : LitStr),
      R.versions.any (fun w => w.name == lit.value) = false →
      (VersionFilter.atLeastExcl lit).verify R = .error ⟨lit.span, Level.error, unknownVersionMessage lit.value⟩ ∧
      (VersionFilter.atLeast lit).verify R = .error ⟨lit.span, Level.error, unknownVersionMessage lit.value⟩ ∧
      (VersionFilter.atMostExcl lit).verify R = .error ⟨lit.span, Level.error, unknownVersionMessage lit.value⟩ ∧
      (VersionFilter.atMost lit).verify R = .error ⟨lit.span, Level.error, unknownVersionMessage lit.value⟩) ∧
    (∀ (versions : VersionList) (version : Version) (item : Item) (tl fp : Bool)
       (f : VersionFilter) (d : Diagnostic),
      ItemReach versions version item tl fp f →
      f.verify versions = .error d →
      generate_filtered_item item versions version tl fp = .error (.diag d)) ∧
    (∀ (versions : VersionList) (opts : Options) (item : Item) (f : VersionFilter)
       (d : Diagnostic) (pre : List Version) (version : Version) (post : List Version),
      versions.versions = pre ++ version :: post →
      (∀ u ∈ pre, ∃ o, generate_filtered_item item versions u true
        (!item.isMod || opts.nest_toplevel_modules) = Except.ok o) →
      ItemReach versions version item true (!item.isMod || opts.nest_toplevel_modules) f →
      f.verify versions = .error d →
      call versions opts item = .error (.diag d) ∧
        ∀ out, call versions opts item ≠ Except.ok out) ∧
    (call ⟨[⟨"v1"⟩, ⟨"v2"⟩]⟩ Options.default
        (Item.mod [] .inherited "m"
          (some [Item.struct [] .inherited "S" 0
            (Fields.named [(⟨[⟨Meta.list ⟨some "version", 3⟩ (.ok (VersionFilter.atMost ⟨"v9_9_9", 7⟩)), 4⟩], .inherited, 5⟩, false)])
            false]) false) =
      .error (.diag ⟨7, Level.error, unknownVersionMessage "v9_9_9"⟩)) := by
  refine ⟨?_, ?_, ?_, ?_⟩
  · intro R lit h
    refine ⟨?_, ?_, ?_, ?_⟩ <;> simp [VersionFilter.verify, h]
  · intro versions version item tl fp f d hre hver
    exact itemReach_generate_error versions version item tl fp f d hre hver
  · intro versions opts item f d pre version post hvs hpre hre hver
    have hc := call_reach_error versions opts item f d pre version post hvs hpre hre hver
    refine ⟨hc, ?_⟩
    intro out hout
    rw [hc] at hout
    exact Except.noConfusion hout
  · simp [call, call_loop, Item.isMod, item_vis, Options.default, generate_filtered_item,
      generate_filtered_items, afterGate, filterGate, item_attrs, get_version_attr,
      Path.isIdent, generate_filtered_fields_group, generate_filtered_fields,
      generate_filtered_field, VersionFilter.verify, generate_attrs, surround]

/-- Witness for C3: AtMost("v9_9_9") against [v1, v2]; and, against [v1], a
    field nested inside a struct inside a module root and tagged with that
    filter is reached during emission, so the whole call aborts with the
    field's diagnostic. -/
theorem unknown_positional_reference_aborts_witness :
    (VersionFilter.atMost ⟨"v9_9_9", 7⟩).verify ⟨[⟨"v1"⟩, ⟨"v2"⟩]⟩ =
      .error ⟨7, Level.error, unknownVersionMessage "v9_9_9"⟩ ∧
    call ⟨[⟨"v1"⟩]⟩ Options.default
        (Item.mod [] .inherited "m"
          (some [Item.struct [] .inherited "S" 0
            (Fields.named [(⟨[⟨Meta.list ⟨some "version", 3⟩
              (.ok (VersionFilter.atMost ⟨"v9_9_9", 7⟩)), 4⟩], .inherited, 5⟩, false)])
            false]) false) =
      .error (.diag ⟨7, Level.error, unknownVersionMessage "v9_9_9"⟩) := by
  refine ⟨(unknown_positional_reference_aborts.1 ⟨[⟨"v1"⟩, ⟨"v2"⟩]⟩ ⟨"v9_9_9", 7⟩
    (by decide)).2.2.2, ?_⟩
  have hre : ItemReach ⟨[⟨"v1"⟩]⟩ ⟨"v1"⟩
      (Item.mod [] .inherited "m"
        (some [Item.struct [] .inherited "S" 0
          (Fields.named [(⟨[⟨Meta.list ⟨some "version", 3⟩
            (.ok (VersionFilter.atMost ⟨"v9_9_9", 7⟩)), 4⟩], .inherited, 5⟩, false)])
          false]) false)
      true false (VersionFilter.atMost ⟨"v9_9_9", 7⟩) := by
    apply ItemReach.modChild [] .inherited "m" [] _ [] false true false
      (VersionFilter.atMost ⟨"v9_9_9", 7⟩) rfl (by simp)
    exact ItemReach.structField [] .inherited "S" 0
      (Fields.named [(⟨[⟨Meta.list ⟨some "version", 3⟩
        (.ok (VersionFilter.atMost ⟨"v9_9_9", 7⟩)), 4⟩], .inherited, 5⟩, false)])
      false false false (VersionFilter.atMost ⟨"v9_9_9", 7⟩) rfl
      ⟨[], _, false, [], rfl, by simp, rfl⟩
  exact (unknown_positional_reference_aborts.2.2.1 ⟨[⟨"v1"⟩]⟩ Options.default _
    (VersionFilter.atMost ⟨"v9_9_9", 7⟩) ⟨7, Level.error, unknownVersionMessage "v9_9_9"⟩
    [] ⟨"v1"⟩ [] rfl (by simp) hre
    ((unknown_positional_reference_aborts.1 ⟨[⟨"v1"⟩]⟩ ⟨"v9_9_9", 7⟩ (by decide)).2.2.2)).1

/-- C7 amended: requesting the force-public policy on an implementation or
    foreign block (node categories without a visibility concept) fails with
    the unsupported-visibility diagnostic, and such a root produces no
    variant at all; a trait, however, has a visibility marker, so a trait
    root succeeds with its visibility forced public. -/
theorem force_public_behavior_blocks :
    (∀ (attrs : List Attribute) (sp : Span) (pl : Nat) (items : List ImplItem)
       (versions : VersionList) (w : Version) (tl : Bool),
      get_version_attr attrs = .ok none →
      generate_filtered_item (.impl attrs sp pl items) versions w tl true =
        .error (.diag ⟨sp, Level.error, implMessage⟩)) ∧
    (∀ (attrs : List Attribute) (sp : Span) (pl : Nat) (items : List ForeignItem)
       (versions : VersionList) (w : Version) (tl : Bool),
      get_version_attr attrs = .ok none →
      generate_filtered_item (.foreignMod attrs sp pl items) versions w tl true =
        .error (.diag ⟨sp, Level.error, foreignModMessage⟩)) ∧
    (∀ (attrs : List Attribute) (sp : Span) (pl : Nat) (items : List ImplItem)
       (opts : Options) (v : Version) (vs : List Version),
      get_version_attr attrs = .ok none →
      call ⟨v :: vs⟩ opts (.impl attrs sp pl items) =
        .error (.diag ⟨sp, Level.error, implMessage⟩)) ∧
    (∀ (attrs : List Attribute) (sp : Span) (pl : Nat) (items : List ForeignItem)
       (opts : Options) (v : Version) (vs : List Version),
      get_version_attr attrs = .ok none →
      call ⟨v :: vs⟩ opts (.foreignMod attrs sp pl items) =
        .error (.diag ⟨sp, Level.error, foreignModMessage⟩)) ∧
    (call ⟨[⟨"v1"⟩]⟩ Options.default (Item.trait [] .inherited 0 []) =
      .ok [OTok.vis .inherited, OTok.kw "mod", OTok.ident "v1", OTok.openDelim .brace,
           OTok.vis .pub, OTok.payload 0, OTok.openDelim .brace, OTok.closeDelim .brace,
           OTok.closeDelim .brace]) := by
  refine ⟨generate_impl_force_public, generate_foreign_force_public, ?_, ?_, ?_⟩
  · intro attrs sp pl items opts v vs h
    apply call_error_first_version _ _ _ v vs _ rfl
    rw [show (!(Item.impl attrs sp pl items).isMod || opts.nest_toplevel_modules) = true from by
      simp [Item.isMod]]
    exact generate_impl_force_public attrs sp pl items ⟨v :: vs⟩ v true h
  · intro attrs sp pl items opts v vs h
    apply call_error_first_version _ _ _ v vs _ rfl
    rw [show (!(Item.foreignMod attrs sp pl items).isMod || opts.nest_toplevel_modules) = true from by
      simp [Item.isMod]]
    exact generate_foreign_force_public attrs sp pl items ⟨v :: vs⟩ v true h
  · simp [call, call_loop, Item.isMod, item_vis, Options.default, generate_filtered_item,
      generate_filtered_trait_items, afterGate, filterGate, item_attrs, get_version_attr,
      generate_attrs, surround]

/-- Witness for C7's amended statement: an impl block and a foreign block
    under force-public, both bare of attributes, against [v1]. -/
theorem force_public_behavior_blocks_witness :
    generate_filtered_item (.impl [] 2 3 []) ⟨[⟨"v1"⟩]⟩ ⟨"v1"⟩ true true =
      .error (.diag ⟨2, Level.error, implMessage⟩) ∧
    call ⟨⟨"v1"⟩ :: []⟩ Options.default (.foreignMod [] 4 5 []) =
      .error (.diag ⟨4, Level.error, foreignModMessage⟩) :=
  ⟨force_public_behavior_blocks.1 [] 2 3 [] ⟨[⟨"v1"⟩]⟩ ⟨"v1"⟩ true rfl,
   force_public_behavior_blocks.2.2.2.1 [] 4 5 [] Options.default ⟨"v1"⟩ [] rfl⟩

/-- Counterexample for C7 as stated: a trait root at the top level is
    force-published (it is wrapped in a version module), yet filtering
    succeeds and a variant is emitted, so the failure claimed for traits
    does not occur. -/
theorem trait_force_public_no_failure :
    call ⟨[⟨"v1"⟩]⟩ Options.default (Item.trait [] .pub 42 [TraitItem.fn [] 9]) =
      .ok [OTok.vis .pub, OTok.kw "mod", OTok.ident "v1", OTok.openDelim .brace,
           OTok.vis .pub, OTok.payload 42, OTok.openDelim .brace, OTok.payload 9,
           OTok.closeDelim .brace, OTok.closeDelim .brace] := by
  simp [call, call_loop, Item.isMod, item_vis, Options.default, generate_filtered_item,
    generate_filtered_trait_items, generate_filtered_trait_item, trait_item_attrs,
    afterGate, filterGate, item_attrs, get_version_attr, generate_attrs, surround]

/-- C1: evaluating an empty conjunction or an empty disjunction yields
    false: for every registry R and candidate version v, matches on All([])
    returns false and matches on Any([]) returns false. -/
theorem matches_empty_all_any_false (R : VersionList) (v : Version) :
    (VersionFilter.all []).matches R v = some false ∧
    (VersionFilter.any []).matches R v = some false := by
  refine ⟨?_, ?_⟩ <;> simp [VersionFilter.matches, VersionFilter.matchesAnyList]

/-- C2: over a duplicate-free registry, with the reference name sitting at
    position i and the candidate at position j, the four positional
    operators evaluate to exactly the corresponding index comparison; and
    on the registry [v1_0_0, v1_0_1, v1_1_0, v2_0_0], AtMost("v1_0_1")
    accepts exactly v1_0_0 and v1_0_1 while AtLeast("v1_1_0") accepts
    exactly v1_1_0 and v2_0_0. -/
theorem positional_matches_index (R : VersionList) (v : Version) (n : String) (sp : Span)
    (i j : Nat) (hi : i < R.versions.length) (hj : j < R.versions.length)
    (hnd : (R.versions.map Version.name).Nodup)
    (hn : (R.versions.get ⟨i, hi⟩).name = n)
    (hv : (R.versions.get ⟨j, hj⟩).name = v.name) :
    ((VersionFilter.atLeastExcl ⟨n, sp⟩).matches R v = some (decide (j > i)) ∧
     (VersionFilter.atLeast ⟨n, sp⟩).matches R v = some (decide (j ≥ i)) ∧
     (VersionFilter.atMostExcl ⟨n, sp⟩).matches R v = some (decide (j < i)) ∧
     (VersionFilter.atMost ⟨n, sp⟩).matches R v = some (decide (j ≤ i))) ∧
    ((VersionList.mk [⟨"v1_0_0"⟩, ⟨"v1_0_1"⟩, ⟨"v1_1_0"⟩, ⟨"v2_0_0"⟩]).versions.filter
        (fun u => (VersionFilter.atMost ⟨"v1_0_1", 0⟩).matches ⟨[⟨"v1_0_0"⟩, ⟨"v1_0_1"⟩, ⟨"v1_1_0"⟩, ⟨"v2_0_0"⟩]⟩ u == some true)
      = [⟨"v1_0_0"⟩, ⟨"v1_0_1"⟩] ∧
     (VersionList.mk [⟨"v1_0_0"⟩, ⟨"v1_0_1"⟩, ⟨"v1_1_0"⟩, ⟨"v2_0_0"⟩]).versions.filter
        (fun u => (VersionFilter.atLeast ⟨"v1_1_0", 0⟩).matches ⟨[⟨"v1_0_0"⟩, ⟨"v1_0_1"⟩, ⟨"v1_1_0"⟩, ⟨"v2_0_0"⟩]⟩ u == some true)
      = [⟨"v1_1_0"⟩, ⟨"v2_0_0"⟩]) := by
  have h1 : position (fun w => n == w.name) R.versions = some i :=
    position_eq_of_get R.versions n i hi hnd hn
  have h2 : position (fun w => v.name == w.name) R.versions = some j :=
    position_eq_of_get R.versions v.name j hj hnd hv
  refine ⟨⟨?_, ?_, ?_, ?_⟩, ?_, ?_⟩ <;>
    simp [VersionFilter.matches, h1, h2, position, List.filter]

/-- Witness for C2 at the registry of the spec, with reference v1_0_1
    (position 1) and candidate v1_1_0 (position 2). -/
theorem positional_matches_index_witness :
    ((VersionFilter.atLeastExcl ⟨"v1_0_1", 0⟩).matches ⟨[⟨"v1_0_0"⟩, ⟨"v1_0_1"⟩, ⟨"v1_1_0"⟩, ⟨"v2_0_0"⟩]⟩ ⟨"v1_1_0"⟩ = some (decide ((2 : Nat) > 1)) ∧
     (VersionFilter.atLeast ⟨"v1_0_1", 0⟩).matches ⟨[⟨"v1_0_0"⟩, ⟨"v1_0_1"⟩, ⟨"v1_1_0"⟩, ⟨"v2_0_0"⟩]⟩ ⟨"v1_1_0"⟩ = some (decide ((2 : Nat) ≥ 1)) ∧
     (VersionFilter.atMostExcl ⟨"v1_0_1", 0⟩).matches ⟨[⟨"v1_0_0"⟩, ⟨"v1_0_1"⟩, ⟨"v1_1_0"⟩, ⟨"v2_0_0"⟩]⟩ ⟨"v1_1_0"⟩ = some (decide ((2 : Nat) < 1)) ∧
     (VersionFilter.atMost ⟨"v1_0_1", 0⟩).matches ⟨[⟨"v1_0_0"⟩, ⟨"v1_0_1"⟩, ⟨"v1_1_0"⟩, ⟨"v2_0_0"⟩]⟩ ⟨"v1_1_0"⟩ = some (decide ((2 : Nat) ≤ 1))) ∧
    ((VersionList.mk [⟨"v1_0_0"⟩, ⟨"v1_0_1"⟩, ⟨"v1_1_0"⟩, ⟨"v2_0_0"⟩]).versions.filter
        (fun u => (VersionFilter.atMost ⟨"v1_0_1", 0⟩).matches ⟨[⟨"v1_0_0"⟩, ⟨"v1_0_1"⟩, ⟨"v1_1_0"⟩, ⟨"v2_0_0"⟩]⟩ u == some true)
      = [⟨"v1_0_0"⟩, ⟨"v1_0_1"⟩] ∧
     (VersionList.mk [⟨"v1_0_0"⟩, ⟨"v1_0_1"⟩, ⟨"v1_1_0"⟩, ⟨"v2_0_0"⟩]).versions.filter
        (fun u => (VersionFilter.atLeast ⟨"v1_1_0", 0⟩).matches ⟨[⟨"v1_0_0"⟩, ⟨"v1_0_1"⟩, ⟨"v1_1_0"⟩, ⟨"v2_0_0"⟩]⟩ u == some true)
      = [⟨"v1_1_0"⟩, ⟨"v2_0_0"⟩]) :=
  positional_matches_index ⟨[⟨"v1_0_0"⟩, ⟨"v1_0_1"⟩, ⟨"v1_1_0"⟩, ⟨"v2_0_0"⟩]⟩ ⟨"v1_1_0"⟩
    "v1_0_1" 0 1 2 (by decide) (by decide) (by decide) (by rfl) (by rfl)

theorem parse_input_loop_paths (names : List (String × Span)) (acc : List Version) (opts : Options) :
    parse_input_loop (names.map (fun nv => Meta.path ⟨some nv.1, nv.2⟩)) ⟨acc⟩ opts =
      .ok (⟨acc ++ names.map (fun nv => ⟨nv.1⟩)⟩, opts) := by
  induction names generalizing acc with
  | nil => simp [parse_input_loop]
  | cons nv rest ih => simp [parse_input_loop, ih]

/-- C4 amended: registry construction performs no duplicate check: every
    list of well-formed version identifiers, repeated names included, is
    accepted in the given order with the default options. -/
theorem parse_input_accepts_any_names (names : List (String × Span)) :
    parse_input (names.map (fun nv => Meta.path ⟨some nv.1, nv.2⟩)) =
      .ok (⟨names.map (fun nv => ⟨nv.1⟩)⟩, Options.default) := by
  rw [parse_input]
  rw [parse_input_loop_paths names [] Options.default]
  rfl

/-- Counterexample for C4 as stated: constructing the registry from the
    duplicate list [v1, v1] succeeds and keeps both occurrences, so a
    repeated name does not make construction fail. -/
theorem parse_input_duplicate_accepted :
    parse_input [Meta.path ⟨some "v1", 0⟩, Meta.path ⟨some "v1", 1⟩] =
      .ok (⟨[⟨"v1"⟩, ⟨"v1"⟩]⟩, Options.default) := rfl

theorem generate_attrs_eq (attrs : List Attribute) :
    generate_attrs attrs =
      (attrs.filter (fun a => !(a.path.isIdent "version"))).map
        (fun a => OTok.attr a.path a.payload) := by
  induction attrs with
  | nil => rfl
  | cons a rest ih =>
      by_cases h : a.path.isIdent "version" = true
      · simp [generate_attrs, h, List.filter_cons, ih]
      · simp [generate_attrs, h, List.filter_cons, ih]

theorem get_version_attr_first (pre post : List Attribute) (p : Path) (pl : Nat)
    (f : VersionFilter) (hpre : attrsNoFilter pre = true) (hp : p.isIdent "version" = true) :
    get_version_attr (pre ++ (⟨Meta.list p (.ok f), pl⟩ : Attribute) :: post) = .ok (some f) := by
  induction pre with
  | nil => simp [get_version_attr, hp]
  | cons a rest ih =>
      rw [attrsNoFilter, List.all_cons, Bool.and_eq_true] at hpre
      obtain ⟨ha, hrest⟩ := hpre
      rw [Bool.not_eq_eq_eq_not, Bool.not_true] at ha
      have hrest' : attrsNoFilter rest = true := hrest
      obtain ⟨meta, pl2⟩ := a
      cases meta with
      | path q => simpa [get_version_attr] using ih hrest'
      | nameValue q v => simpa [get_version_attr] using ih hrest'
      | list q args =>
          have hq : q.isIdent "version" = false := by simpa [isFilterAttr] using ha
          simpa [get_version_attr, hq] using ih hrest'

/-- C6 amended: the first recognized filter attribute wins and later ones
    are ignored without error, but re-serialization drops every attribute
    whose path is `version` (later filter attributes included) and returns
    exactly the non-filter attributes unchanged, in order. -/
theorem version_attr_first_wins_all_dropped :
    (∀ (pre post : List Attribute) (p : Path) (pl : Nat) (f : VersionFilter),
      attrsNoFilter pre = true → p.isIdent "version" = true →
      get_version_attr (pre ++ (⟨Meta.list p (.ok f), pl⟩ : Attribute) :: post) = .ok (some f)) ∧
    (∀ attrs : List Attribute,
      generate_attrs attrs =
        (attrs.filter (fun a => !(a.path.isIdent "version"))).map
          (fun a => OTok.attr a.path a.payload)) :=
  ⟨get_version_attr_first, generate_attrs_eq⟩

/-- Witness for C6's amended statement: a filter attribute followed by
    another filter attribute and a derive attribute. -/
theorem version_attr_first_wins_all_dropped_witness :
    get_version_attr ([] ++ (⟨Meta.list ⟨some "version", 0⟩ (.ok (VersionFilter.all [])), 5⟩ : Attribute) ::
        [⟨Meta.list ⟨some "version", 0⟩ (.ok (VersionFilter.any [])), 6⟩, ⟨Meta.path ⟨some "derive", 1⟩, 7⟩]) =
      .ok (some (VersionFilter.all [])) ∧
    generate_attrs [⟨Meta.path ⟨some "derive", 1⟩, 7⟩] =
      (([⟨Meta.path ⟨some "derive", 1⟩, 7⟩] : List Attribute).filter
        (fun a => !(a.path.isIdent "version"))).map (fun a => OTok.attr a.path a.payload) :=
  ⟨version_attr_first_wins_all_dropped.1 [] _ ⟨some "version", 0⟩ 5 (VersionFilter.all []) rfl rfl,
   version_attr_first_wins_all_dropped.2 [⟨Meta.path ⟨some "derive", 1⟩, 7⟩]⟩

/-- Counterexample for C6 as stated: with two filter attributes and one
    derive attribute, the re-serialized attribute list holds only the
    derive attribute; the second (unhonored) filter attribute is not among
    the attributes returned. -/
theorem second_filter_attr_not_returned :
    generate_attrs [⟨Meta.list ⟨some "version", 0⟩ (.ok (VersionFilter.all [])), 1⟩,
                    ⟨Meta.list ⟨some "version", 0⟩ (.ok (VersionFilter.any [])), 2⟩,
                    ⟨Meta.path ⟨some "derive", 0⟩, 3⟩] = [OTok.attr ⟨some "derive", 0⟩ 3] ∧
    OTok.attr ⟨some "version", 0⟩ 2 ∉
      generate_attrs [⟨Meta.list ⟨some "version", 0⟩ (.ok (VersionFilter.all [])), 1⟩,
                      ⟨Meta.list ⟨some "version", 0⟩ (.ok (VersionFilter.any [])), 2⟩,
                      ⟨Meta.path ⟨some "derive", 0⟩, 3⟩] :=
  ⟨rfl, by intro hmem; revert hmem; decide⟩

theorem get_version_attr_nofilter (attrs : List Attribute) (h : attrsNoFilter attrs = true) :
    get_version_attr attrs = .ok none := by
  induction attrs with
  | nil => rfl
  | cons a rest ih =>
      rw [attrsNoFilter, List.all_cons, Bool.and_eq_true] at h
      obtain ⟨ha, hrest⟩ := h
      obtain ⟨meta, pl⟩ := a
      cases meta with
      | path q => simpa [get_version_attr] using ih hrest
      | nameValue q val => simpa [get_version_attr] using ih hrest
      | list q args =>
          have hq : q.isIdent "version" = false := by simpa [isFilterAttr] using ha
          simpa [get_version_attr, hq] using ih hrest

theorem generate_filtered_field_nf (f : Field) (versions : VersionList) (v w : Version)
    (h : fieldNoFilter f = true) :
    generate_filtered_field f versions v = generate_filtered_field f versions w := by
  have hg := get_version_attr_nofilter f.attrs h
  have h1 := filterGate_nofilter f.attrs versions v hg
  have h2 := filterGate_nofilter f.attrs versions w hg
  simp only [generate_filtered_field, h1, h2]

theorem generate_filtered_fields_nf (fs : Punctuated Field) (versions : VersionList)
    (v w : Version) (h : fieldsPunctNoFilter fs = true) :
    generate_filtered_fields fs versions v = generate_filtered_fields fs versions w := by
  induction fs with
  | nil => rfl
  | cons fc rest ih =>
      rw [fieldsPunctNoFilter, List.all_cons, Bool.and_eq_true] at h
      obtain ⟨hf, hrest⟩ := h
      obtain ⟨f, comma⟩ := fc
      simp only [generate_filtered_fields, generate_filtered_field_nf f versions v w hf, ih hrest]

theorem generate_filtered_fields_group_nf (fields : Fields) (versions : VersionList)
    (v w : Version) (h : fieldsNoFilter fields = true) :
    generate_filtered_fields_group fields versions v = generate_filtered_fields_group fields versions w := by
  cases fields with
  | named fs =>
      simp only [generate_filtered_fields_group,
        generate_filtered_fields_nf fs versions v w (by simpa [fieldsNoFilter] using h)]
  | unnamed fs =>
      simp only [generate_filtered_fields_group,
        generate_filtered_fields_nf fs versions v w (by simpa [fieldsNoFilter] using h)]
  | unit => rfl

theorem generate_filtered_variant_nf (vr : Variant) (versions : VersionList) (v w : Version)
    (h : variantNoFilter vr = true) :
    generate_filtered_variant vr versions v = generate_filtered_variant vr versions w := by
  rw [variantNoFilter, Bool.and_eq_true] at h
  obtain ⟨ha, hf⟩ := h
  have hg := get_version_attr_nofilter vr.attrs ha
  have h1 := filterGate_nofilter vr.attrs versions v hg
  have h2 := filterGate_nofilter vr.attrs versions w hg
  simp only [generate_filtered_variant, h1, h2,
    generate_filtered_fields_group_nf vr.fields versions v w hf]

theorem generate_filtered_variants_nf (vs : Punctuated Variant) (versions : VersionList)
    (v w : Version) (h : variantsNoFilter vs = true) :
    generate_filtered_variants vs versions v = generate_filtered_variants vs versions w := by
  induction vs with
  | nil => rfl
  | cons vc rest ih =>
      rw [variantsNoFilter, List.all_cons, Bool.and_eq_true] at h
      obtain ⟨hvr, hrest⟩ := h
      obtain ⟨vr, comma⟩ := vc
      simp only [generate_filtered_variants, generate_filtered_variant_nf vr versions v w hvr,
        ih hrest]

theorem generate_filtered_trait_item_nf (t : TraitItem) (versions : VersionList) (v w : Version)
    (h : traitItemNoFilter t = true) :
    generate_filtered_trait_item t versions v = generate_filtered_trait_item t versions w := by
  cases t with
  | verbatim p => rfl
  | const attrs p =>
      have hg := get_version_attr_nofilter attrs (by simpa [traitItemNoFilter, trait_item_attrs] using h)
      simp only [generate_filtered_trait_item, trait_item_attrs,
        filterGate_nofilter attrs versions v hg, filterGate_nofilter attrs versions w hg]
  | fn attrs p =>
      have hg := get_version_attr_nofilter attrs (by simpa [traitItemNoFilter, trait_item_attrs] using h)
      simp only [generate_filtered_trait_item, trait_item_attrs,
        filterGate_nofilter attrs versions v hg, filterGate_nofilter attrs versions w hg]
  | mac attrs p =>
      have hg := get_version_attr_nofilter attrs (by simpa [traitItemNoFilter, trait_item_attrs] using h)
      simp only [generate_filtered_trait_item, trait_item_attrs,
        filterGate_nofilter attrs versions v hg, filterGate_nofilter attrs versions w hg]
  | type attrs p =>
      have hg := get_version_attr_nofilter attrs (by simpa [traitItemNoFilter, trait_item_attrs] using h)
      simp only [generate_filtered_trait_item, trait_item_attrs,
        filterGate_nofilter attrs versions v hg, filterGate_nofilter attrs versions w hg]

theorem generate_filtered_trait_items_nf (ts : List TraitItem) (versions : VersionList)
    (v w : Version) (h : ts.all traitItemNoFilter = true) :
    generate_filtered_trait_items ts versions v = generate_filtered_trait_items ts versions w := by
  induction ts with
  | nil => rfl
  | cons t rest ih =>
      rw [List.all_cons, Bool.and_eq_true] at h
      obtain ⟨ht, hrest⟩ := h
      simp only [generate_filtered_trait_items, generate_filtered_trait_item_nf t versions v w ht,
        ih hrest]

theorem generate_filtered_foreign_item_nf (t : ForeignItem) (versions : VersionList) (v w : Version)
    (h : foreignItemNoFilter t = true) :
    generate_filtered_foreign_item t versions v = generate_filtered_foreign_item t versions w := by
  cases t with
  | verbatim p => rfl
  | fn attrs vis p =>
      have hg := get_version_attr_nofilter attrs (by simpa [foreignItemNoFilter, foreign_item_attrs] using h)
      simp only [generate_filtered_foreign_item, foreign_item_attrs,
        filterGate_nofilter attrs versions v hg, filterGate_nofilter attrs versions w hg]
  | mac attrs p =>
      have hg := get_version_attr_nofilter attrs (by simpa [foreignItemNoFilter, foreign_item_attrs] using h)
      simp only [generate_filtered_foreign_item, foreign_item_attrs,
        filterGate_nofilter attrs versions v hg, filterGate_nofilter attrs versions w hg]
  | static attrs vis p =>
      have hg := get_version_attr_nofilter attrs (by simpa [foreignItemNoFilter, foreign_item_attrs] using h)
      simp only [generate_filtered_foreign_item, foreign_item_attrs,
        filterGate_nofilter attrs versions v hg, filterGate_nofilter attrs versions w hg]
  | type attrs vis p =>
      have hg := get_version_attr_nofilter attrs (by simpa [foreignItemNoFilter, foreign_item_attrs] using h)
      simp only [generate_filtered_foreign_item, foreign_item_attrs,
        filterGate_nofilter attrs versions v hg, filterGate_nofilter attrs versions w hg]

theorem generate_filtered_foreign_items_nf (ts : List ForeignItem) (versions : VersionList)
    (v w : Version) (h : ts.all foreignItemNoFilter = true) :
    generate_filtered_foreign_items ts versions v = generate_filtered_foreign_items ts versions w := by
  induction ts with
  | nil => rfl
  | cons t rest ih =>
      rw [List.all_cons, Bool.and_eq_true] at h
      obtain ⟨ht, hrest⟩ := h
      simp only [generate_filtered_foreign_items,
        generate_filtered_foreign_item_nf t versions v w ht, ih hrest]

theorem generate_filtered_impl_item_nf (t : ImplItem) (versions : VersionList) (v w : Version)
    (h : implItemNoFilter t = true) :
    generate_filtered_impl_item t versions v = generate_filtered_impl_item t versions w := by
  cases t with
  | verbatim p => rfl
  | const attrs vis p =>
      have hg := get_version_attr_nofilter attrs (by simpa [implItemNoFilter, impl_item_attrs] using h)
      simp only [generate_filtered_impl_item, impl_item_attrs,
        filterGate_nofilter attrs versions v hg, filterGate_nofilter attrs versions w hg]
  | fn attrs vis p =>
      have hg := get_version_attr_nofilter attrs (by simpa [implItemNoFilter, impl_item_attrs] using h)
      simp only [generate_filtered_impl_item, impl_item_attrs,
        filterGate_nofilter attrs versions v hg, filterGate_nofilter attrs versions w hg]
  | mac attrs p =>
      have hg := get_version_attr_nofilter attrs (by simpa [implItemNoFilter, impl_item_attrs] using h)
      simp only [generate_filtered_impl_item, impl_item_attrs,
        filterGate_nofilter attrs versions v hg, filterGate_nofilter attrs versions w hg]
  | type attrs vis p =>
      have hg := get_version_attr_nofilter attrs (by simpa [implItemNoFilter, impl_item_attrs] using h)
      simp only [generate_filtered_impl_item, impl_item_attrs,
        filterGate_nofilter attrs versions v hg, filterGate_nofilter attrs versions w hg]

theorem generate_filtered_impl_items_nf (ts : List ImplItem) (versions : VersionList)
    (v w : Version) (h : ts.all implItemNoFilter = true) :
    generate_filtered_impl_items ts versions v = generate_filtered_impl_items ts versions w := by
  induction ts with
  | nil => rfl
  | cons t rest ih =>
      rw [List.all_cons, Bool.and_eq_true] at h
      obtain ⟨ht, hrest⟩ := h
      simp only [generate_filtered_impl_items, generate_filtered_impl_item_nf t versions v w ht,
        ih hrest]

mutual

theorem generate_filtered_item_nf : ∀ (item : Item) (versions : VersionList) (v w : Version)
    (toplevel force_public : Bool), itemNoFilter item = true →
    (toplevel = false ∨ force_public = true ∨ item.isMod = false) →
    generate_filtered_item item versions v toplevel force_public =
      generate_filtered_item item versions w toplevel force_public
  | .mod attrs vis id content semi, versions, v, w, tl, fp, hnf, hc => by
      simp only [itemNoFilter, Bool.and_eq_true] at hnf
      obtain ⟨ha, hcont⟩ := hnf
      have hg := get_version_attr_nofilter attrs ha
      have h1 := filterGate_nofilter attrs versions v hg
      have h2 := filterGate_nofilter attrs versions w hg
      have htl : (tl && !fp) = false := by
        rcases hc with h | h | h
        · simp [h]
        · simp [h]
        · simp [Item.isMod] at h
      cases content with
      | none =>
          simp [generate_filtered_item, item_attrs, h1, h2, afterGate, htl]
      | some items =>
          have hch := generate_filtered_items_nf items versions v w
            (by simpa [contentNoFilter] using hcont)
          simp [generate_filtered_item, item_attrs, h1, h2, afterGate, htl, hch]
  | .enum attrs vis id generics variants, versions, v, w, tl, fp, hnf, hc => by
      simp only [itemNoFilter, Bool.and_eq_true] at hnf
      obtain ⟨ha, hvars⟩ := hnf
      have hg := get_version_attr_nofilter attrs ha
      simp only [generate_filtered_item, item_attrs, filterGate_nofilter attrs versions v hg,
        filterGate_nofilter attrs versions w hg, afterGate,
        generate_filtered_variants_nf variants versions v w hvars]
  | .struct attrs vis id generics fields semi, versions, v, w, tl, fp, hnf, hc => by
      simp only [itemNoFilter, Bool.and_eq_true] at hnf
      obtain ⟨ha, hfields⟩ := hnf
      have hg := get_version_attr_nofilter attrs ha
      simp only [generate_filtered_item, item_attrs, filterGate_nofilter attrs versions v hg,
        filterGate_nofilter attrs versions w hg, afterGate,
        generate_filtered_fields_group_nf fields versions v w hfields]
  | .union attrs vis id generics fields, versions, v, w, tl, fp, hnf, hc => by
      simp only [itemNoFilter, Bool.and_eq_true] at hnf
      obtain ⟨ha, hfields⟩ := hnf
      have hg := get_version_attr_nofilter attrs ha
      simp only [generate_filtered_item, item_attrs, filterGate_nofilter attrs versions v hg,
        filterGate_nofilter attrs versions w hg, afterGate,
        generate_filtered_fields_nf fields versions v w hfields]
  | .trait attrs vis payload items, versions, v, w, tl, fp, hnf, hc => by
      simp only [itemNoFilter, Bool.and_eq_true] at hnf
      obtain ⟨ha, hitems⟩ := hnf
      have hg := get_version_attr_nofilter attrs ha
      simp only [generate_filtered_item, item_attrs, filterGate_nofilter attrs versions v hg,
        filterGate_nofilter attrs versions w hg, afterGate,
        generate_filtered_trait_items_nf items versions v w hitems]
  | .foreignMod attrs sp payload items, versions, v, w, tl, fp, hnf, hc => by
      simp only [itemNoFilter, Bool.and_eq_true] at hnf
      obtain ⟨ha, hitems⟩ := hnf
      have hg := get_version_attr_nofilter attrs ha
      simp only [generate_filtered_item, item_attrs, filterGate_nofilter attrs versions v hg,
        filterGate_nofilter attrs versions w hg, afterGate,
        generate_filtered_foreign_items_nf items versions v w hitems]
  | .impl attrs sp payload items, versions, v, w, tl, fp, hnf, hc => by
      simp only [itemNoFilter, Bool.and_eq_true] at hnf
      obtain ⟨ha, hitems⟩ := hnf
      have hg := get_version_attr_nofilter attrs ha
      simp only [generate_filtered_item, item_attrs, filterGate_nofilter attrs versions v hg,
        filterGate_nofilter attrs versions w hg, afterGate,
        generate_filtered_impl_items_nf items versions v w hitems]
  | .const attrs vis p, versions, v, w, tl, fp, hnf, hc => by
      have hg := get_version_attr_nofilter attrs (by simpa [itemNoFilter] using hnf)
      simp only [generate_filtered_item, item_attrs, filterGate_nofilter attrs versions v hg,
        filterGate_nofilter attrs versions w hg, afterGate]
  | .externCrate attrs vis p, versions, v, w, tl, fp, hnf, hc => by
      have hg := get_version_attr_nofilter attrs (by simpa [itemNoFilter] using hnf)
      simp only [generate_filtered_item, item_attrs, filterGate_nofilter attrs versions v hg,
        filterGate_nofilter attrs versions w hg, afterGate]
  | .fn attrs vis p, versions, v, w, tl, fp, hnf, hc => by
      have hg := get_version_attr_nofilter attrs (by simpa [itemNoFilter] using hnf)
      simp only [generate_filtered_item, item_attrs, filterGate_nofilter attrs versions v hg,
        filterGate_nofilter attrs versions w hg, afterGate]
  | .mac attrs p, versions, v, w, tl, fp, hnf, hc => by
      have hg := get_version_attr_nofilter attrs (by simpa [itemNoFilter] using hnf)
      simp only [generate_filtered_item, item_attrs, filterGate_nofilter attrs versions v hg,
        filterGate_nofilter attrs versions w hg, afterGate]
  | .static attrs vis p, versions, v, w, tl, fp, hnf, hc => by
      have hg := get_version_attr_nofilter attrs (by simpa [itemNoFilter] using hnf)
      simp only [generate_filtered_item, item_attrs, filterGate_nofilter attrs versions v hg,
        filterGate_nofilter attrs versions w hg, afterGate]
  | .traitAlias attrs vis p, versions, v, w, tl, fp, hnf, hc => by
      have hg := get_version_attr_nofilter attrs (by simpa [itemNoFilter] using hnf)
      simp only [generate_filtered_item, item_attrs, filterGate_nofilter attrs versions v hg,
        filterGate_nofilter attrs versions w hg, afterGate]
  | .typeAlias attrs vis p, versions, v, w, tl, fp, hnf, hc => by
      have hg := get_version_attr_nofilter attrs (by simpa [itemNoFilter] using hnf)
      simp only [generate_filtered_item, item_attrs, filterGate_nofilter attrs versions v hg,
        filterGate_nofilter attrs versions w hg, afterGate]
  | .useItem attrs vis p, versions, v, w, tl, fp, hnf, hc => by
      have hg := get_version_attr_nofilter attrs (by simpa [itemNoFilter] using hnf)
      simp only [generate_filtered_item, item_attrs, filterGate_nofilter attrs versions v hg,
        filterGate_nofilter attrs versions w hg, afterGate]
  | .verbatim p, versions, v, w, tl, fp, hnf, hc => by
      simp only [generate_filtered_item, item_attrs, filterGate, afterGate]

theorem generate_filtered_items_nf : ∀ (items : List Item) (versions : VersionList)
    (v w : Version), itemsNoFilter items = true →
    generate_filtered_items items versions v = generate_filtered_items items versions w
  | [], versions, v, w, _ => by simp only [generate_filtered_items]
  | item :: rest, versions, v, w, h => by
      rw [itemsNoFilter, Bool.and_eq_true] at h
      obtain ⟨hi, hrest⟩ := h
      simp only [generate_filtered_items,
        generate_filtered_item_nf item versions v w false false hi (Or.inl rfl),
        generate_filtered_items_nf rest versions v w hrest]

end

/-- C8 amended: for a root declaration with no filter anywhere in its
    subtree, the tree filter's output does not depend on the version being
    filtered for, except for the in-place renaming of a top-level module
    that is not being force-published (and, in the final assembly, the
    version-named wrapper module and the optional feature tag). -/
theorem no_filter_output_version_blind (item : Item) (versions : VersionList) (v w : Version)
    (toplevel force_public : Bool) (hnf : itemNoFilter item = true)
    (hc : toplevel = false ∨ force_public = true ∨ item.isMod = false) :
    generate_filtered_item item versions v toplevel force_public =
      generate_filtered_item item versions w toplevel force_public :=
  generate_filtered_item_nf item versions v w toplevel force_public hnf hc

/-- Witness for C8's amended statement: an attribute-free unit struct is
    emitted identically for v1 and v2. -/
theorem no_filter_output_version_blind_witness :
    generate_filtered_item (Item.struct [] .inherited "S" 0 Fields.unit true)
        ⟨[⟨"v1"⟩, ⟨"v2"⟩]⟩ ⟨"v1"⟩ true true =
      generate_filtered_item (Item.struct [] .inherited "S" 0 Fields.unit true)
        ⟨[⟨"v1"⟩, ⟨"v2"⟩]⟩ ⟨"v2"⟩ true true :=
  no_filter_output_version_blind (Item.struct [] .inherited "S" 0 Fields.unit true)
    ⟨[⟨"v1"⟩, ⟨"v2"⟩]⟩ ⟨"v1"⟩ ⟨"v2"⟩ true true
    (by simp [itemNoFilter, attrsNoFilter, fieldsNoFilter]) (Or.inr (Or.inl rfl))

/-- Counterexample for C8 as stated: a filter-free top-level module is
    renamed in place to the version's name, so the variants for v1 and v2
    differ in more than visibility. -/
theorem mod_rename_version_dependent :
    call_loop ⟨[⟨"v1"⟩, ⟨"v2"⟩]⟩ Options.default (Item.mod [] .inherited "m" (some []) false)
        [⟨"v1"⟩, ⟨"v2"⟩] =
      .ok [[OTok.vis .inherited, OTok.kw "mod", OTok.ident "v1", OTok.openDelim .brace, OTok.closeDelim .brace],
           [OTok.vis .inherited, OTok.kw "mod", OTok.ident "v2", OTok.openDelim .brace, OTok.closeDelim .brace]] ∧
    [OTok.vis .inherited, OTok.kw "mod", OTok.ident "v1", OTok.openDelim .brace, OTok.closeDelim .brace] ≠
      [OTok.vis .inherited, OTok.kw "mod", OTok.ident "v2", OTok.openDelim .brace, OTok.closeDelim .brace] := by
  constructor
  · simp [call_loop, Item.isMod, item_vis, Options.default, generate_filtered_item,
      generate_filtered_items, afterGate, filterGate, item_attrs, get_version_attr,
      generate_attrs, surround]
  · decide

theorem streamClean_append (a b : List OTok) :
    streamClean (a ++ b) = (streamClean a && streamClean b) := by
  induction a with
  | nil => simp [streamClean]
  | cons t rest ih => simp [streamClean, ih, Bool.and_assoc]

theorem streamClean_surround (d : Delim) (s : List OTok) :
    streamClean (surround d s) = streamClean s := by
  simp [surround, streamClean_append, streamClean, tokClean]

theorem generate_attrs_clean (attrs : List Attribute) :
    streamClean (generate_attrs attrs) = true := by
  induction attrs with
  | nil => rfl
  | cons a rest ih =>
      by_cases hpa : a.path.isIdent "version" = true
      · simp [generate_attrs, hpa, ih]
      · simp [generate_attrs, hpa, streamClean, tokClean, ih]

theorem afterGate_ok_some (r : Except Err Bool) (body : Unit → Except Err (Option (List OTok)))
    (s : List OTok) (h : afterGate r body = .ok (some s)) : body () = .ok (some s) := by
  cases r with
  | error e => simp [afterGate] at h
  | ok b =>
      cases b with
      | false => simp [afterGate] at h
      | true => simpa [afterGate] using h

theorem generate_filtered_field_clean (f : Field) (versions : VersionList) (version : Version)
    (s : List OTok) (h : generate_filtered_field f versions version = .ok (some s)) :
    streamClean s = true := by
  simp only [generate_filtered_field] at h
  cases hg : filterGate (some f.attrs) versions version with
  | error e => simp [hg] at h
  | ok b =>
      cases b with
      | false => simp [hg] at h
      | true =>
          simp only [hg] at h
          injection h with h1
          injection h1 with h2
          subst h2
          simp [streamClean_append, generate_attrs_clean, streamClean, tokClean]

theorem generate_filtered_fields_clean (fs : Punctuated Field) (versions : VersionList)
    (version : Version) (s : List OTok)
    (h : generate_filtered_fields fs versions version = .ok s) : streamClean s = true := by
  induction fs generalizing s with
  | nil =>
      simp only [generate_filtered_fields] at h
      injection h with h1
      subst h1
      rfl
  | cons fc rest ih =>
      obtain ⟨f, comma⟩ := fc
      simp only [generate_filtered_fields] at h
      cases hf : generate_filtered_field f versions version with
      | error e => simp [hf] at h
      | ok o =>
          simp only [hf] at h
          cases o with
          | none => exact ih s h
          | some sf =>
              cases hr : generate_filtered_fields rest versions version with
              | error e => simp [hr] at h
              | ok restS =>
                  simp only [hr] at h
                  injection h with h1
                  subst h1
                  have h1 := generate_filtered_field_clean f versions version sf hf
                  have h2 := ih restS hr
                  cases comma <;> simp [streamClean_append, h1, h2, streamClean, tokClean]

theorem generate_filtered_fields_group_clean (fields : Fields) (versions : VersionList)
    (version : Version) (s : List OTok)
    (h : generate_filtered_fields_group fields versions version = .ok s) :
    streamClean s = true := by
  cases fields with
  | named fs =>
      simp only [generate_filtered_fields_group] at h
      cases hfs : generate_filtered_fields fs versions version with
      | error e => simp [hfs] at h
      | ok children =>
          simp only [hfs] at h
          injection h with h1
          subst h1
          rw [streamClean_surround]
          exact generate_filtered_fields_clean fs versions version children hfs
  | unnamed fs =>
      simp only [generate_filtered_fields_group] at h
      cases hfs : generate_filtered_fields fs versions version with
      | error e => simp [hfs] at h
      | ok children =>
          simp only [hfs] at h
          injection h with h1
          subst h1
          rw [streamClean_surround]
          exact generate_filtered_fields_clean fs versions version children hfs
  | unit =>
      simp only [generate_filtered_fields_group] at h
      injection h with h1
      subst h1
      rfl

theorem generate_filtered_variant_clean (vr : Variant) (versions : VersionList)
    (version : Version) (s : List OTok)
    (h : generate_filtered_variant vr versions version = .ok (some s)) :
    streamClean s = true := by
  simp only [generate_filtered_variant] at h
  cases hg : filterGate (some vr.attrs) versions version with
  | error e => simp [hg] at h
  | ok b =>
      cases b with
      | false => simp [hg] at h
      | true =>
          simp only [hg] at h
          cases hfg : generate_filtered_fields_group vr.fields versions version with
          | error e => simp [hfg] at h
          | ok fieldsS =>
              simp only [hfg] at h
              injection h with h1
              injection h1 with h2
              subst h2
              have hf := generate_filtered_fields_group_clean vr.fields versions version fieldsS hfg
              cases hd : vr.discriminant <;>
                simp [hd, streamClean_append, generate_attrs_clean, hf, streamClean, tokClean]

theorem generate_filtered_variants_clean (vs : Punctuated Variant) (versions : VersionList)
    (version : Version) (s : List OTok)
    (h : generate_filtered_variants vs versions version = .ok s) : streamClean s = true := by
  induction vs generalizing s with
  | nil =>
      simp only [generate_filtered_variants] at h
      injection h with h1
      subst h1
      rfl
  | cons vc rest ih =>
      obtain ⟨vr, comma⟩ := vc
      simp only [generate_filtered_variants] at h
      cases hv : generate_filtered_variant vr versions version with
      | error e => simp [hv] at h
      | ok o =>
          simp only [hv] at h
          cases o with
          | none => exact ih s h
          | some sv =>
              cases hr : generate_filtered_variants rest versions version with
              | error e => simp [hr] at h
              | ok restS =>
                  simp only [hr] at h
                  injection h with h1
                  subst h1
                  have h1 := generate_filtered_variant_clean vr versions version sv hv
                  have h2 := ih restS hr
                  cases comma <;> simp [streamClean_append, h1, h2, streamClean, tokClean]

theorem generate_filtered_trait_item_clean (t : TraitItem) (versions : VersionList)
    (version : Version) (s : List OTok)
    (h : generate_filtered_trait_item t versions version = .ok (some s)) :
    streamClean s = true := by
  simp only [generate_filtered_trait_item] at h
  cases hg : filterGate (trait_item_attrs t) versions version with
  | error e => simp [hg] at h
  | ok b =>
      cases b with
      | false => simp [hg] at h
      | true =>
          simp only [hg] at h
          cases t <;>
            (injection h with h1; injection h1 with h2; subst h2;
             simp [streamClean_append, generate_attrs_clean, streamClean, tokClean])

theorem generate_filtered_trait_items_clean (ts : List TraitItem) (versions : VersionList)
    (version : Version) (s : List OTok)
    (h : generate_filtered_trait_items ts versions version = .ok s) : streamClean s = true := by
  induction ts generalizing s with
  | nil =>
      simp only [generate_filtered_trait_items] at h
      injection h with h1
      subst h1
      rfl
  | cons t rest ih =>
      simp only [generate_filtered_trait_items] at h
      cases ht : generate_filtered_trait_item t versions version with
      | error e => simp [ht] at h
      | ok o =>
          simp only [ht] at h
          cases o with
          | none => exact ih s h
          | some st =>
              cases hr : generate_filtered_trait_items rest versions version with
              | error e => simp [hr] at h
              | ok restS =>
                  simp only [hr] at h
                  injection h with h1
                  subst h1
                  simp [streamClean_append,
                    generate_filtered_trait_item_clean t versions version st ht, ih restS hr]

theorem generate_filtered_foreign_item_clean (t : ForeignItem) (versions : VersionList)
    (version : Version) (s : List OTok)
    (h : generate_filtered_foreign_item t versions version = .ok (some s)) :
    streamClean s = true := by
  simp only [generate_filtered_foreign_item] at h
  cases hg : filterGate (foreign_item_attrs t) versions version with
  | error e => simp [hg] at h
  | ok b =>
      cases b with
      | false => simp [hg] at h
      | true =>
          simp only [hg] at h
          cases t <;>
            (injection h with h1; injection h1 with h2; subst h2;
             simp [streamClean_append, generate_attrs_clean, streamClean, tokClean])

theorem generate_filtered_foreign_items_clean (ts : List ForeignItem) (versions : VersionList)
    (version : Version) (s : List OTok)
    (h : generate_filtered_foreign_items ts versions version = .ok s) : streamClean s = true := by
  induction ts generalizing s with
  | nil =>
      simp only [generate_filtered_foreign_items] at h
      injection h with h1
      subst h1
      rfl
  | cons t rest ih =>
      simp only [generate_filtered_foreign_items] at h
      cases ht : generate_filtered_foreign_item t versions version with
      | error e => simp [ht] at h
      | ok o =>
          simp only [ht] at h
          cases o with
          | none => exact ih s h
          | some st =>
              cases hr : generate_filtered_foreign_items rest versions version with
              | error e => simp [hr] at h
              | ok restS =>
                  simp only [hr] at h
                  injection h with h1
                  subst h1
                  simp [streamClean_append,
                    generate_filtered_foreign_item_clean t versions version st ht, ih restS hr]

theorem generate_filtered_impl_item_clean (t : ImplItem) (versions : VersionList)
    (version : Version) (s : List OTok)
    (h : generate_filtered_impl_item t versions version = .ok (some s)) :
    streamClean s = true := by
  simp only [generate_filtered_impl_item] at h
  cases hg : filterGate (impl_item_attrs t) versions version with
  | error e => simp [hg] at h
  | ok b =>
      cases b with
      | false => simp [hg] at h
      | true =>
          simp only [hg] at h
          cases t <;>
            (injection h with h1; injection h1 with h2; subst h2;
             simp [streamClean_append, generate_attrs_clean, streamClean, tokClean])

theorem generate_filtered_impl_items_clean (ts : List ImplItem) (versions : VersionList)
    (version : Version) (s : List OTok)
    (h : generate_filtered_impl_items ts versions version = .ok s) : streamClean s = true := by
  induction ts generalizing s with
  | nil =>
      simp only [generate_filtered_impl_items] at h
      injection h with h1
      subst h1
      rfl
  | cons t rest ih =>
      simp only [generate_filtered_impl_items] at h
      cases ht : generate_filtered_impl_item t versions version with
      | error e => simp [ht] at h
      | ok o =>
          simp only [ht] at h
          cases o with
          | none => exact ih s h
          | some st =>
              cases hr : generate_filtered_impl_items rest versions version with
              | error e => simp [hr] at h
              | ok restS =>
                  simp only [hr] at h
                  injection h with h1
                  subst h1
                  simp [streamClean_append,
                    generate_filtered_impl_item_clean t versions version st ht, ih restS hr]

mutual

theorem generate_filtered_item_clean : ∀ (item : Item) (versions : VersionList)
    (version : Version) (tl fp : Bool) (s : List OTok),
    generate_filtered_item item versions version tl fp = .ok (some s) → streamClean s = true
  | .mod attrs vis id content semi, versions, version, tl, fp, s, h => by
      cases content with
      | none =>
          simp only [generate_filtered_item] at h
          have h' := afterGate_ok_some _ _ _ h
          simp only at h'
          injection h' with h1
          injection h1 with h2
          subst h2
          cases semi <;> simp [streamClean_append, generate_attrs_clean, streamClean, tokClean]
      | some items =>
          simp only [generate_filtered_item] at h
          have h' := afterGate_ok_some _ _ _ h
          simp only at h'
          cases hits : generate_filtered_items items versions version with
          | error e => simp [hits] at h'
          | ok children =>
              simp only [hits] at h'
              injection h' with h1
              injection h1 with h2
              subst h2
              have hch := generate_filtered_items_clean items versions version children hits
              cases semi <;>
                simp [streamClean_append, streamClean_surround, generate_attrs_clean, hch, streamClean, tokClean]
  | .enum attrs vis id generics variants, versions, version, tl, fp, s, h => by
      simp only [generate_filtered_item] at h
      have h' := afterGate_ok_some _ _ _ h
      simp only at h'
      cases hvs : generate_filtered_variants variants versions version with
      | error e => simp [hvs] at h'
      | ok children =>
          simp only [hvs] at h'
          injection h' with h1
          injection h1 with h2
          subst h2
          simp [streamClean_append, streamClean_surround, generate_attrs_clean,
            generate_filtered_variants_clean variants versions version children hvs, streamClean, tokClean]
  | .struct attrs vis id generics fields semi, versions, version, tl, fp, s, h => by
      simp only [generate_filtered_item] at h
      have h' := afterGate_ok_some _ _ _ h
      simp only at h'
      cases hfg : generate_filtered_fields_group fields versions version with
      | error e => simp [hfg] at h'
      | ok fieldsS =>
          simp only [hfg] at h'
          injection h' with h1
          injection h1 with h2
          subst h2
          have hf := generate_filtered_fields_group_clean fields versions version fieldsS hfg
          cases semi <;> simp [streamClean_append, generate_attrs_clean, hf, streamClean, tokClean]
  | .union attrs vis id generics fields, versions, version, tl, fp, s, h => by
      simp only [generate_filtered_item] at h
      have h' := afterGate_ok_some _ _ _ h
      simp only at h'
      cases hfs : generate_filtered_fields fields versions version with
      | error e => simp [hfs] at h'
      | ok children =>
          simp only [hfs] at h'
          injection h' with h1
          injection h1 with h2
          subst h2
          simp [streamClean_append, streamClean_surround, generate_attrs_clean,
            generate_filtered_fields_clean fields versions version children hfs, streamClean, tokClean]
  | .trait attrs vis payload items, versions, version, tl, fp, s, h => by
      simp only [generate_filtered_item] at h
      have h' := afterGate_ok_some _ _ _ h
      simp only at h'
      cases hts : generate_filtered_trait_items items versions version with
      | error e => simp [hts] at h'
      | ok children =>
          simp only [hts] at h'
          injection h' with h1
          injection h1 with h2
          subst h2
          simp [streamClean_append, streamClean_surround, generate_attrs_clean,
            generate_filtered_trait_items_clean items versions version children hts, streamClean, tokClean]
  | .foreignMod attrs sp payload items, versions, version, tl, fp, s, h => by
      simp only [generate_filtered_item] at h
      have h' := afterGate_ok_some _ _ _ h
      simp only at h'
      cases fp with
      | true => simp at h'
      | false =>
          simp only [Bool.false_eq_true, if_false] at h'
          cases hts : generate_filtered_foreign_items items versions version with
          | error e => simp [hts] at h'
          | ok children =>
              simp only [hts] at h'
              injection h' with h1
              injection h1 with h2
              subst h2
              simp [streamClean_append, streamClean_surround, generate_attrs_clean,
                generate_filtered_foreign_items_clean items versions version children hts, streamClean, tokClean]
  | .impl attrs sp payload items, versions, version, tl, fp, s, h => by
      simp only [generate_filtered_item] at h
      have h' := afterGate_ok_some _ _ _ h
      simp only at h'
      cases fp with
      | true => simp at h'
      | false =>
          simp only [Bool.false_eq_true, if_false] at h'
          cases hts : generate_filtered_impl_items items versions version with
          | error e => simp [hts] at h'
          | ok children =>
              simp only [hts] at h'
              injection h' with h1
              injection h1 with h2
              subst h2
              simp [streamClean_append, streamClean_surround, generate_attrs_clean,
                generate_filtered_impl_items_clean items versions version children hts, streamClean, tokClean]
  | .const attrs vis p, versions, version, tl, fp, s, h => by
      simp only [generate_filtered_item] at h
      have h' := afterGate_ok_some _ _ _ h
      simp only at h'
      injection h' with h1
      injection h1 with h2
      subst h2
      simp [streamClean_append, generate_attrs_clean, streamClean, tokClean]
  | .externCrate attrs vis p, versions, version, tl, fp, s, h => by
      simp only [generate_filtered_item] at h
      have h' := afterGate_ok_some _ _ _ h
      simp only at h'
      injection h' with h1
      injection h1 with h2
      subst h2
      simp [streamClean_append, generate_attrs_clean, streamClean, tokClean]
  | .fn attrs vis p, versions, version, tl, fp, s, h => by
      simp only [generate_filtered_item] at h
      have h' := afterGate_ok_some _ _ _ h
      simp only at h'
      injection h' with h1
      injection h1 with h2
      subst h2
      simp [streamClean_append, generate_attrs_clean, streamClean, tokClean]
  | .mac attrs p, versions, version, tl, fp, s, h => by
      simp only [generate_filtered_item] at h
      have h' := afterGate_ok_some _ _ _ h
      simp only at h'
      injection h' with h1
      injection h1 with h2
      subst h2
      simp [streamClean_append, generate_attrs_clean, streamClean, tokClean]
  | .static attrs vis p, versions, version, tl, fp, s, h => by
      simp only [generate_filtered_item] at h
      have h' := afterGate_ok_some _ _ _ h
      simp only at h'
      injection h' with h1
      injection h1 with h2
      subst h2
      simp [streamClean_append, generate_attrs_clean, streamClean, tokClean]
  | .traitAlias attrs vis p, versions, version, tl, fp, s, h => by
      simp only [generate_filtered_item] at h
      have h' := afterGate_ok_some _ _ _ h
      simp only at h'
      injection h' with h1
      injection h1 with h2
      subst h2
      simp [streamClean_append, generate_attrs_clean, streamClean, tokClean]
  | .typeAlias attrs vis p, versions, version, tl, fp, s, h => by
      simp only [generate_filtered_item] at h
      have h' := afterGate_ok_some _ _ _ h
      simp only at h'
      injection h' with h1
      injection h1 with h2
      subst h2
      simp [streamClean_append, generate_attrs_clean, streamClean, tokClean]
  | .useItem attrs vis p, versions, version, tl, fp, s, h => by
      simp only [generate_filtered_item] at h
      have h' := afterGate_ok_some _ _ _ h
      simp only at h'
      injection h' with h1
      injection h1 with h2
      subst h2
      simp [streamClean_append, generate_attrs_clean, streamClean, tokClean]
  | .verbatim p, versions, version, tl, fp, s, h => by
      simp only [generate_filtered_item] at h
      have h' := afterGate_ok_some _ _ _ h
      simp only at h'
      injection h' with h1
      injection h1 with h2
      subst h2
      rfl
termination_by item versions version tl fp s _ => sizeOf item

theorem generate_filtered_items_clean : ∀ (items : List Item) (versions : VersionList)
    (version : Version) (s : List OTok),
    generate_filtered_items items versions version = .ok s → streamClean s = true
  | [], versions, version, s, h => by
      simp only [generate_filtered_items] at h
      injection h with h1
      subst h1
      rfl
  | item :: rest, versions, version, s, h => by
      simp only [generate_filtered_items] at h
      cases hi : generate_filtered_item item versions version false false with
      | error e => simp [hi] at h
      | ok o =>
          simp only [hi] at h
          cases o with
          | none => exact generate_filtered_items_clean rest versions version s h
          | some si =>
              cases hr : generate_filtered_items rest versions version with
              | error e => simp [hr] at h
              | ok restS =>
                  simp only [hr] at h
                  injection h with h1
                  subst h1
                  simp [streamClean_append,
                    generate_filtered_item_clean item versions version false false si hi,
                    generate_filtered_items_clean rest versions version restS hr]
termination_by items versions version s _ => sizeOf items

end

theorem streamClean_flatten (L : List (List OTok)) (h : ∀ s ∈ L, streamClean s = true) :
    streamClean L.flatten = true := by
  induction L with
  | nil => rfl
  | cons a t ih =>
      simp only [List.flatten_cons, streamClean_append, h a (by simp),
        ih (fun s hs => h s (by simp [hs])), Bool.and_self]

theorem call_loop_clean (versions : VersionList) (opts : Options) (item : Item)
    (vl : List Version) (streams : List (List OTok))
    (h : call_loop versions opts item vl = .ok streams) :
    ∀ s ∈ streams, streamClean s = true := by
  induction vl generalizing streams with
  | nil =>
      simp only [call_loop] at h
      injection h with h1
      subst h1
      intro s hs
      simp at hs
  | cons version rest ih =>
      simp only [call_loop] at h
      cases hg : generate_filtered_item item versions version true
          (!item.isMod || opts.nest_toplevel_modules) with
      | error e => simp [hg] at h
      | ok o =>
          simp only [hg] at h
          cases o with
          | none => exact ih streams h
          | some stream =>
              cases hr : call_loop versions opts item rest with
              | error e => simp [hr] at h
              | ok restS =>
                  simp only [hr] at h
                  injection h with h1
                  subst h1
                  intro s hs
                  rcases List.mem_cons.mp hs with rfl | hs'
                  · have hbase := generate_filtered_item_clean item versions version true
                      (!item.isMod || opts.nest_toplevel_modules) stream hg
                    cases hfeat : opts.features <;>
                      cases hwm : (!item.isMod || opts.nest_toplevel_modules) <;>
                        simp [hfeat, hwm, streamClean_append, streamClean_surround, hbase,
                          streamClean, tokClean]
                  · exact ih restS hr s hs'

theorem call_clean (versions : VersionList) (opts : Options) (item : Item) (out : List OTok)
    (h : call versions opts item = .ok out) : streamClean out = true := by
  simp only [call] at h
  cases hl : call_loop versions opts item versions.versions with
  | error e => simp [hl] at h
  | ok impls =>
      simp only [hl] at h
      injection h with h1
      subst h1
      exact streamClean_flatten impls (call_loop_clean versions opts item versions.versions impls hl)

/-- C10: every emitted variant is free of filter annotations: an ok result
    of the tree filter, and of the whole invocation, contains no attribute
    token whose path is `version`, because attribute re-serialization drops
    every such attribute at every node kind. -/
theorem emitted_output_no_version_attr :
    (∀ (item : Item) (versions : VersionList) (version : Version) (tl fp : Bool) (s : List OTok),
      generate_filtered_item item versions version tl fp = .ok (some s) → streamClean s = true) ∧
    (∀ (versions : VersionList) (opts : Options) (item : Item) (out : List OTok),
      call versions opts item = .ok out → streamClean out = true) :=
  ⟨generate_filtered_item_clean, call_clean⟩

/-- Witness for C10: a struct carrying a filter attribute and a derive
    attribute; the emitted variant holds the derive attribute only. -/
theorem emitted_output_no_version_attr_witness :
    streamClean [OTok.vis .inherited, OTok.kw "mod", OTok.ident "v1", OTok.openDelim .brace,
      OTok.attr ⟨some "derive", 3⟩ 8, OTok.vis .pub, OTok.kw "struct", OTok.ident "S",
      OTok.payload 0, OTok.kw ";", OTok.closeDelim .brace] = true :=
  emitted_output_no_version_attr.2 ⟨[⟨"v1"⟩]⟩ Options.default
    (Item.struct [⟨Meta.list ⟨some "version", 0⟩ (.ok (VersionFilter.version ⟨"v", 1⟩)), 2⟩,
        ⟨Meta.path ⟨some "derive", 3⟩, 8⟩] .inherited "S" 0 Fields.unit true)
    [OTok.vis .inherited, OTok.kw "mod", OTok.ident "v1", OTok.openDelim .brace,
      OTok.attr ⟨some "derive", 3⟩ 8, OTok.vis .pub, OTok.kw "struct", OTok.ident "S",
      OTok.payload 0, OTok.kw ";", OTok.closeDelim .brace]
    (by
      simp [call, call_loop, Item.isMod, item_vis, Options.default, generate_filtered_item,
        afterGate, filterGate, item_attrs, get_version_attr, Path.isIdent, VersionFilter.verify,
        VersionFilter.matches, strStartsWith, generate_filtered_fields_group, generate_attrs,
        Attribute.path, surround])

/-- C5 amended: verify on a Match (prefix-test) filter does perform a
    check: it succeeds exactly when some registry entry has the pattern as
    a prefix, and otherwise fails with the unknown-version diagnostic
    carrying the pattern and its location. -/
theorem verify_match_prefix (R : VersionList) (lit : LitStr) :
    ((VersionFilter.version lit).verify R = .ok () ↔
      ∃ v ∈ R.versions, strStartsWith v.name lit.value = true) ∧
    ((VersionFilter.version lit).verify R = .ok () ∨
      (VersionFilter.version lit).verify R = .error ⟨lit.span, Level.error, unknownVersionMessage lit.value⟩) := by
  constructor
  · constructor
    · intro h
      by_cases hc : R.versions.any (fun v => strStartsWith v.name lit.value) = true
      · simpa [List.any_eq_true] using hc
      · simp [VersionFilter.verify, hc] at h
    · intro h
      have hc : R.versions.any (fun v => strStartsWith v.name lit.value) = true := by
        simpa [List.any_eq_true] using h
      simp [VersionFilter.verify, hc]
  · by_cases hc : R.versions.any (fun v => strStartsWith v.name lit.value) = true
    · left
      simp [VersionFilter.verify, hc]
    · right
      simp [VersionFilter.verify, hc]

/-- Counterexample for C5 as stated: verification of Match("v9") against
    the registry [v1] fails, so Match verification is not check-free. -/
theorem verify_match_can_fail :
    (VersionFilter.version ⟨"v9", 0⟩).verify ⟨[⟨"v1"⟩]⟩ =
      .error ⟨0, Level.error, unknownVersionMessage "v9"⟩ := by
  simp [VersionFilter.verify]
  decide

end VersioningRS
